import Mathlib

/-!
Verification development for the WebIDL processor core (tokeniser,
attribute/operation/interface productions, and the validator's recursive
dictionary analyses).  Strings are modelled as `List Char`; the sticky
regexes of the tokeniser are modelled as prefix matchers returning the
length of the match at the head of the remaining input.
-/

set_option maxHeartbeats 1000000

/-- Conversion of a Lean string literal into the `List Char` representation
used throughout this development. -/
def s2l (s : String) : List Char := s.data

/-- Character class of the whitespace regex `[\t\n\r ]`. -/
def isWsChar (c : Char) : Bool := c == '\t' || c == '\n' || c == '\r' || c == ' '

/-- Character class `[0-9]`. -/
def isDigitChar (c : Char) : Bool := '0' ≤ c && c ≤ '9'

/-- Character class `[A-Za-z]`. -/
def isAlphaChar (c : Char) : Bool := ('A' ≤ c && c ≤ 'Z') || ('a' ≤ c && c ≤ 'z')

/-- Character class `[0-9A-Fa-f]` of hexadecimal digits. -/
def isHexChar (c : Char) : Bool :=
  isDigitChar c || ('A' ≤ c && c ≤ 'F') || ('a' ≤ c && c ≤ 'f')

/-- Character class `[0-7]` of octal digits. -/
def isOctChar (c : Char) : Bool := '0' ≤ c && c ≤ '7'

/-- Tail class `[0-9A-Z_a-z-]` of the identifier regex. -/
def isIdentTailChar (c : Char) : Bool :=
  isDigitChar c || ('A' ≤ c && c ≤ 'Z') || c == '_' || ('a' ≤ c && c ≤ 'z') || c == '-'

/-- The guard class `[-0-9.A-Z_a-z]` that routes the tokeniser into the
decimal/integer/identifier branch. -/
def isIdentStart (c : Char) : Bool :=
  c == '-' || isDigitChar c || c == '.' || ('A' ≤ c && c ≤ 'Z') || c == '_' ||
    ('a' ≤ c && c ≤ 'z')

/-- Character class `[^\t\n\r 0-9A-Za-z]` of the `other` regex. -/
def isOtherChar (c : Char) : Bool := !(isWsChar c || isDigitChar c || isAlphaChar c)

/-- Length of the maximal digit run at the head of the input. -/
def digitSpan (cs : List Char) : Nat := (cs.takeWhile isDigitChar).length

/-- Length of the maximal whitespace run at the head of the input. -/
def wsSpan (cs : List Char) : Nat := (cs.takeWhile isWsChar).length

/-- The whitespace regex `[\t\n\r ]+` as a sticky prefix matcher. -/
def matchWhitespace (cs : List Char) : Option Nat :=
  let n := wsSpan cs
  if n = 0 then none else some n

/-- The identifier regex `[_-]?[A-Za-z][0-9A-Z_a-z-]*` as a sticky prefix
matcher (the optional `[_-]` commits only when a letter follows, exactly as
regex backtracking does). -/
def matchIdentifier : List Char → Option Nat
  | [] => none
  | [c0] => if isAlphaChar c0 then some 1 else none
  | c0 :: c1 :: rest =>
    if (c0 == '_' || c0 == '-') && isAlphaChar c1 then
      some (2 + (rest.takeWhile isIdentTailChar).length)
    else if isAlphaChar c0 then
      some (1 + ((c1 :: rest).takeWhile isIdentTailChar).length)
    else none

/-- The string regex `"[^"]*"` as a sticky prefix matcher. -/
def matchString : List Char → Option Nat
  | '"' :: rest =>
    let n := (rest.takeWhile (fun c => !(c == '"'))).length
    match rest.drop n with
    | '"' :: _ => some (n + 2)
    | _ => none
  | _ => none

/-- Body `(0([Xx][0-9A-Fa-f]+|[0-7]*)|[1-9][0-9]*)` of the integer regex. -/
def matchIntegerBody : List Char → Option Nat
  | [] => none
  | ['0'] => some 1
  | '0' :: c :: rest =>
    if (c == 'X' || c == 'x') && (rest.takeWhile isHexChar).length ≥ 1 then
      some (2 + (rest.takeWhile isHexChar).length)
    else
      some (1 + ((c :: rest).takeWhile isOctChar).length)
  | c :: rest =>
    if '1' ≤ c && c ≤ '9' then some (1 + digitSpan rest) else none

/-- The integer regex `-?(0([Xx][0-9A-Fa-f]+|[0-7]*)|[1-9][0-9]*)` as a
sticky prefix matcher. -/
def matchInteger : List Char → Option Nat
  | '-' :: rest => (matchIntegerBody rest).map (· + 1)
  | cs => matchIntegerBody cs

/-- The optional exponent `([Ee][-+]?[0-9]+)?` of the decimal regex: the
number of characters it consumes (0 when it matches empty). -/
def expSpan : List Char → Nat
  | e :: rest =>
    if e == 'e' || e == 'E' then
      match rest with
      | s :: rest2 =>
        if s == '-' || s == '+' then
          if digitSpan rest2 ≥ 1 then 2 + digitSpan rest2 else 0
        else if digitSpan rest ≥ 1 then 1 + digitSpan rest else 0
      | [] => 0
    else 0
  | [] => 0

/-- First mantissa alternative `[0-9]+\.[0-9]*` of the decimal regex. -/
def matchMantissaA : List Char → Option Nat
  | cs =>
    let d1 := digitSpan cs
    if d1 = 0 then none
    else
      match cs.drop d1 with
      | '.' :: rest => some (d1 + 1 + digitSpan rest)
      | _ => none

/-- Second mantissa alternative `[0-9]*\.[0-9]+` of the decimal regex. -/
def matchMantissaB : List Char → Option Nat
  | cs =>
    let d1 := digitSpan cs
    match cs.drop d1 with
    | '.' :: rest =>
      let d2 := digitSpan rest
      if d2 = 0 then none else some (d1 + 1 + d2)
    | _ => none

/-- Alternative `([0-9]+\.[0-9]*|[0-9]*\.[0-9]+)([Ee][-+]?[0-9]+)?` of the
decimal regex body. -/
def matchDotDecimal (cs : List Char) : Option Nat :=
  match (matchMantissaA cs).orElse (fun _ => matchMantissaB cs) with
  | some m => some (m + expSpan (cs.drop m))
  | none => none

/-- Alternative `[0-9]+[Ee][-+]?[0-9]+` of the decimal regex body (here the
exponent is mandatory). -/
def matchExpDecimal (cs : List Char) : Option Nat :=
  let d := digitSpan cs
  if d = 0 then none
  else
    match cs.drop d with
    | e :: rest =>
      if e == 'e' || e == 'E' then
        match rest with
        | s :: rest2 =>
          if s == '-' || s == '+' then
            if digitSpan rest2 ≥ 1 then some (d + 2 + digitSpan rest2) else none
          else if digitSpan rest ≥ 1 then some (d + 1 + digitSpan rest) else none
        | [] => none
      else none
    | [] => none

/-- The lookahead `(?=[0-9]*\.|[0-9]+[eE])` of the decimal regex. -/
def decimalLookahead (cs : List Char) : Bool :=
  let d := digitSpan cs
  (match cs.drop d with
   | '.' :: _ => true
   | c :: _ => decide (d ≥ 1) && (c == 'e' || c == 'E')
   | [] => false)

/-- Body of the decimal regex after the optional sign. -/
def matchDecimalBody (cs : List Char) : Option Nat :=
  if decimalLookahead cs then
    (matchDotDecimal cs).orElse (fun _ => matchExpDecimal cs)
  else none

/-- The decimal regex
`-?(?=[0-9]*\.|[0-9]+[eE])(([0-9]+\.[0-9]*|[0-9]*\.[0-9]+)([Ee][-+]?[0-9]+)?|[0-9]+[Ee][-+]?[0-9]+)`
as a sticky prefix matcher. -/
def matchDecimal : List Char → Option Nat
  | '-' :: rest => (matchDecimalBody rest).map (· + 1)
  | cs => matchDecimalBody cs

/-- Tail `([^*]|\*[^/])*\*\/` of the block-comment regex: total characters
consumed (body plus the closing `*/`).  At each position the three regex
options ( `[^*]`, `\*[^/]`, close ) are mutually exclusive, so greedy
matching with backtracking collapses to this deterministic recursion. -/
def blockCommentClose : List Char → Option Nat
  | '*' :: '/' :: _ => some 2
  | '*' :: _ :: rest => (blockCommentClose rest).map (· + 2)
  | _ :: rest => (blockCommentClose rest).map (· + 1)
  | [] => none

/-- One unit `\/(\/.*|\*([^*]|\*[^/])*\*\/)[\t\n\r ]*` of the comment
regex (`.` does not match a newline). -/
def matchCommentUnit : List Char → Option Nat
  | '/' :: '/' :: rest =>
    let body := (rest.takeWhile (fun c => !(c == '\n'))).length
    some (2 + body + wsSpan (rest.drop body))
  | '/' :: '*' :: rest =>
    (blockCommentClose rest).map (fun m => 2 + m + wsSpan (rest.drop m))
  | _ => none

/-- Fuelled iteration of the `(unit)+` repetition of the comment regex:
total length of the maximal run of units (0 when the first unit fails).
Every unit consumes at least two characters, so fuel `cs.length` is always
sufficient at the call site. -/
def commentUnits : Nat → List Char → Nat
  | 0, _ => 0
  | fuel + 1, cs =>
    match matchCommentUnit cs with
    | none => 0
    | some n => n + commentUnits fuel (cs.drop n)

/-- The comment regex `((\/(\/.*|\*([^*]|\*[^/])*\*\/)[\t\n\r ]*)+)` as a
sticky prefix matcher. -/
def matchComment (cs : List Char) : Option Nat :=
  let n := commentUnits cs.length cs
  if n = 0 then none else some n

/-- The `other` regex `[^\t\n\r 0-9A-Za-z]` as a sticky prefix matcher. -/
def matchOther : List Char → Option Nat
  | c :: _ => if isOtherChar c then some 1 else none
  | [] => none

/-- The list `typeNameKeywords` of the tokeniser. -/
def typeNameKeywords : List (List Char) :=
  [(s2l "ArrayBuffer"), (s2l "DataView"), (s2l "Int8Array"), (s2l "Int16Array"),
   (s2l "Int32Array"), (s2l "Uint8Array"), (s2l "Uint16Array"), (s2l "Uint32Array"),
   (s2l "Uint8ClampedArray"), (s2l "Float32Array"), (s2l "Float64Array"),
   (s2l "any"), (s2l "object"), (s2l "symbol")]

/-- The list `stringTypes` of the tokeniser. -/
def stringTypes : List (List Char) :=
  [(s2l "ByteString"), (s2l "DOMString"), (s2l "USVString")]

/-- The list `argumentNameKeywords` of the tokeniser. -/
def argumentNameKeywords : List (List Char) :=
  [(s2l "async"), (s2l "attribute"), (s2l "callback"), (s2l "const"),
   (s2l "constructor"), (s2l "deleter"), (s2l "dictionary"), (s2l "enum"),
   (s2l "getter"), (s2l "includes"), (s2l "inherit"), (s2l "interface"),
   (s2l "iterable"), (s2l "maplike"), (s2l "namespace"), (s2l "partial"),
   (s2l "required"), (s2l "setlike"), (s2l "setter"), (s2l "static"),
   (s2l "stringifier"), (s2l "typedef"), (s2l "unrestricted")]

/-- The list `nonRegexTerminals` of the tokeniser (base list concatenated
with `argumentNameKeywords`, `stringTypes` and `typeNameKeywords`). -/
def nonRegexTerminals : List (List Char) :=
  [(s2l "-Infinity"), (s2l "FrozenArray"), (s2l "Infinity"), (s2l "NaN"),
   (s2l "Promise"), (s2l "boolean"), (s2l "byte"), (s2l "double"),
   (s2l "false"), (s2l "float"), (s2l "long"), (s2l "mixin"), (s2l "null"),
   (s2l "octet"), (s2l "optional"), (s2l "or"), (s2l "readonly"),
   (s2l "record"), (s2l "sequence"), (s2l "short"), (s2l "true"),
   (s2l "unsigned"), (s2l "void")] ++
    argumentNameKeywords ++ stringTypes ++ typeNameKeywords

/-- The list `punctuations` of the tokeniser, in source order. -/
def punctuations : List (List Char) :=
  [(s2l "("), (s2l ")"), (s2l ","), (s2l "..."), (s2l ":"), (s2l ";"),
   (s2l "<"), (s2l "="), (s2l ">"), (s2l "?"), (s2l "["), (s2l "]"),
   (s2l "\x7b"), (s2l "\x7d")]

/-- The list `reserved` of reserved identifiers. -/
def reservedIdents : List (List Char) :=
  [(s2l "_constructor"), (s2l "toString"), (s2l "_toString")]

/-- The `unescape` helper of `productions/helpers.ts`: strips one leading
underscore. -/
def unescape (cs : List Char) : List Char :=
  match cs with
  | '_' :: rest => rest
  | _ => cs

/-- A token as produced by `tokenise` (interface `TokeniserToken`): the
`line` and `index` fields are optional because the `eof` token is pushed
without them. -/
structure Token where
  type : List Char
  value : List Char
  trivia : List Char
  line : Option Nat
  index : Option Nat
deriving DecidableEq, Repr

/-- Errors raised by `tokenise`: a `WebIDLParseError` carrying the bare
message, or the internal `Token stream not progressing` failure.  The
`outOfFuel` constructor is an artifact of the fuelled encoding; it is never
returned when the fuel exceeds the input length (`tokLoop_progress`). -/
inductive TokErr where
  | syntaxErr (bareMessage : List Char)
  | notProgressing
  | outOfFuel
deriving DecidableEq, Repr

/-- Result of `tokenise`. -/
inductive TokOut where
  | toks (tokens : List Token)
  | fail (e : TokErr)
deriving DecidableEq, Repr

/-- Number of newline characters in a chunk of trivia (the tokeniser's
`(currentTrivia.match(/\n/g) || []).length`). -/
def nlCount (cs : List Char) : Nat := (cs.filter (fun c => c == '\n')).length

/-- The punctuation scan of the tokeniser loop: the first punctuation of
the fixed list that is a prefix of the remaining input (`str.startsWith`). -/
def punctFind (cs : List Char) : Option (List Char) :=
  punctuations.find? (fun p => p.isPrefixOf cs)

/-- Outcome of the first dispatch phase of one tokeniser-loop iteration
(the branches on `nextChar` up to, but not including, the punctuation
scan). -/
inductive Phase1Out where
  | triviaMatch (n : Nat)
  | tokenMatch (ty : List Char) (n : Nat)
  | reservedErr (msg : List Char)
  | noHit
deriving DecidableEq, Repr

/-- First dispatch phase of one tokeniser-loop iteration: whitespace and
comments are matched and immediately turned back into pending trivia
(`noFlushTrivia` followed by the pop), the decimal/integer/identifier
chain runs for `[-0-9.A-Z_a-z]`, a string match runs for `"`.  On an
identifier match the reserved-identifier check fires before the keyword
rewriting of `token.type`. -/
def phase1 (cs : List Char) : Phase1Out :=
  match cs with
  | [] => .noHit
  | c :: _ =>
    if isWsChar c then
      match matchWhitespace cs with
      | some n => .triviaMatch n
      | none => .noHit
    else if c == '/' then
      match matchComment cs with
      | some n => .triviaMatch n
      | none => .noHit
    else if isIdentStart c then
      match matchDecimal cs with
      | some n => .tokenMatch (s2l "decimal") n
      | none =>
        match matchInteger cs with
        | some n => .tokenMatch (s2l "integer") n
        | none =>
          match matchIdentifier cs with
          | some n =>
            let v := cs.take n
            if reservedIdents.contains v then
              .reservedErr (unescape v ++ s2l " is a reserved identifier and must not be used.")
            else if nonRegexTerminals.contains v then
              .tokenMatch v n
            else
              .tokenMatch (s2l "identifier") n
          | none => .noHit
    else if c == '"' then
      match matchString cs with
      | some n => .tokenMatch (s2l "string") n
      | none => .noHit
    else .noHit

/-- The tokeniser loop of `tokenise`, with explicit fuel (each iteration
consumes at least one character, so fuel `input.length + 1` never runs
out).  The punctuation scan runs after phase 1 exactly as in the source;
`punctFind_of_phase1_ne` shows the scan can only hit when phase 1
produced nothing, so the `.triviaMatch`/`.tokenMatch` punctuation branches
are unreachable (in the source they would push a second token and,
in the trivia branch, use the momentarily decremented token index; the
net-effect token index is used here). -/
def tokLoop : Nat → List Char → List Char → Nat → Nat → List Token → TokOut
  | 0, _, _, _, _, _ => .fail .outOfFuel
  | _ + 1, [], trivia, _, _, acc =>
    .toks (acc ++ [{ type := s2l "eof", value := [], trivia := trivia,
                     line := none, index := none }])
  | fuel + 1, c :: rest, trivia, line, index, acc =>
    match phase1 (c :: rest) with
    | .reservedErr m => .fail (.syntaxErr m)
    | .triviaMatch n =>
      let trivia1 := trivia ++ (c :: rest).take n
      let line1 := line + nlCount ((c :: rest).take n)
      (match punctFind (c :: rest) with
       | some p =>
         tokLoop fuel ((c :: rest).drop p.length) [] line1 (index + 1)
           (acc ++ [{ type := p, value := p, trivia := trivia1,
                      line := some line1, index := some index }])
       | none => tokLoop fuel ((c :: rest).drop n) trivia1 line1 index acc)
    | .tokenMatch ty n =>
      let tok : Token := { type := ty, value := (c :: rest).take n,
                           trivia := trivia, line := some line, index := some index }
      (match punctFind (c :: rest) with
       | some p =>
         tokLoop fuel ((c :: rest).drop p.length) [] line (index + 1)
           (acc ++ [tok, { type := p, value := p, trivia := [],
                           line := some line, index := some index }])
       | none => tokLoop fuel ((c :: rest).drop n) [] line (index + 1) (acc ++ [tok]))
    | .noHit =>
      (match punctFind (c :: rest) with
       | some p =>
         tokLoop fuel ((c :: rest).drop p.length) [] line (index + 1)
           (acc ++ [{ type := p, value := p, trivia := trivia,
                      line := some line, index := some index }])
       | none =>
         match matchOther (c :: rest) with
         | some n =>
           tokLoop fuel ((c :: rest).drop n) [] line (index + 1)
             (acc ++ [{ type := s2l "other", value := (c :: rest).take n,
                        trivia := trivia, line := some line, index := some index }])
         | none => .fail .notProgressing)

/-- The `tokenise` function of the tokeniser: runs the loop over the whole
input starting with empty pending trivia, line 1 and token index 0, and
appends the terminal `eof` token carrying the remaining trivia. -/
def tokenise (s : List Char) : TokOut := tokLoop (s.length + 1) s [] 1 0 []

/-- Concatenation of `trivia ++ lexeme` over a token vector. -/
def coverage (ts : List Token) : List Char :=
  (ts.map (fun t => t.trivia ++ t.value)).flatten

/-- Density of token indices: position `k` carries `index = some k`. -/
def tokenIndexed (ts : List Token) : Prop :=
  ts.map Token.index = (List.range ts.length).map some

/-- The `line` fields are monotonically non-decreasing along the list
(absent lines are read as the initial line 1). -/
def tokenLinesMono (ts : List Token) : Prop :=
  List.Pairwise (fun a b => a.line.getD 1 ≤ b.line.getD 1) ts

/-- A type node as read by `idlTypeIncludesDictionary`: the `union` flag,
the referenced name (`idlType.idlType`), nullability, and the subtype
list. -/
inductive IdlType where
  | mk (union : Bool) (ref : List Char) (nullable : Bool) (subtype : List IdlType)

/-- The `union` flag of a type node. -/
def IdlType.unionQ : IdlType → Bool
  | .mk u _ _ _ => u

/-- The referenced name (`idlType.idlType`) of a non-union type node. -/
def IdlType.refName : IdlType → List Char
  | .mk _ r _ _ => r

/-- The `nullable` flag of a type node. -/
def IdlType.nullableQ : IdlType → Bool
  | .mk _ _ q _ => q

/-- The `subtype` list of a type node. -/
def IdlType.subtype : IdlType → List IdlType
  | .mk _ _ _ s => s

/-- A definition node as read by the two analyses of `validators/helpers`:
its name (the identity under which `defs.unique` and the caches key it),
its `type` discriminator, the `inheritance` name of a dictionary, its
members reduced to their `required` flags, and the target type of a
typedef (only read when `dtype` is `typedef`; absent member lists of
non-dictionary nodes are modelled as `[]`). -/
structure Defn where
  dname : List Char
  dtype : List Char
  inheritance : Option (List Char)
  members : List Bool
  tdType : IdlType

/-- The definition index: `defs.unique` as an association list from name
to definition node. -/
structure Defs where
  unique : List (List Char × Defn)

/-- `defs.unique.get(name)`. -/
def uniqueGet (defs : Defs) (k : List Char) : Option Defn :=
  (defs.unique.find? (fun p => p.1 == k)).map (fun p => p.2)

/-- `Map.has` on a cache keyed by definition name. -/
def alHas {α : Type} (cache : List (List Char × α)) (k : List Char) : Bool :=
  cache.any (fun p => p.1 == k)

/-- `Map.get` on a cache whose values may themselves be `undefined`
(`none`): an absent key also reads as `undefined`. -/
def alGetD {α : Type} (cache : List (List Char × Option α)) (k : List Char) :
    Option α :=
  match cache.find? (fun p => p.1 == k) with
  | some p => p.2
  | none => none

/-- `Map.set` on a cache (later entries shadow earlier ones). -/
def alSet {α : Type} (cache : List (List Char × α)) (k : List Char) (v : α) :
    List (List Char × α) :=
  (k, v) :: cache

/-- The cache of `dictionaryIncludesRequiredField`: per definition name,
either the indeterminate sentinel (`none`, the source's `undefined`) or a
computed boolean. -/
abbrev RequiredCache := List (List Char × Option Bool)

/-- `dictionaryIncludesRequiredField(dict, defs)` of `validators/helpers`,
with the cache threaded explicitly and structural fuel (the source relies
on the cache for termination; `dictRF_fuel_indep` shows any fuel of at
least `dictBound` gives the same, defined, result).  The source's early
`return true` paths deliberately do not write the final cache entry, so
the entry set to the indeterminate sentinel at entry is left behind. -/
def dictionaryIncludesRequiredField :
    Nat → Defn → Defs → RequiredCache → Option (Option Bool × RequiredCache)
  | 0, _, _, _ => none
  | fuel + 1, dict, defs, cache =>
    if alHas cache dict.dname then some (alGetD cache dict.dname, cache)
    else
      let cache1 := alSet cache dict.dname none
      match dict.inheritance with
      | some inh =>
        match uniqueGet defs inh with
        | none => some (some true, cache1)
        | some superdict =>
          match dictionaryIncludesRequiredField fuel superdict defs cache1 with
          | none => none
          | some (r, cache2) =>
            if r.getD false then some (some true, cache2)
            else
              some (some (dict.members.any (fun b => b)),
                alSet cache2 dict.dname (some (dict.members.any (fun b => b))))
      | none =>
        some (some (dict.members.any (fun b => b)),
          alSet cache1 dict.dname (some (dict.members.any (fun b => b))))

/-- The value `{ reference, dictionary }` returned by
`idlTypeIncludesDictionary`. -/
structure Found where
  reference : IdlType
  dictionary : Defn

/-- The cache `defs.cache.typedefIncludesDictionary`: per typedef name,
either the indeterminate sentinel (`none`, also the stored value of a
computed "no dictionary") or a computed reference. -/
abbrev TypedefCache := List (List Char × Option Found)

/-- The two recursion entry points of `idlTypeIncludesDictionary`: a call
on a type node, or the iteration over a subtype list (the source's `for`
loop, which recurses on each subtype). -/
inductive ICall where
  | tyCall (ty : IdlType) (useNullableInner : Bool)
  | subtypesCall (subs : List IdlType)

/-- `idlTypeIncludesDictionary(idlType, defs, { useNullableInner })` of
`validators/helpers` together with its subtype loop, with the cache
threaded explicitly and structural fuel.  For a non-union type the
referent is looked up in `defs.unique`; a typedef recurses into its target
behind the three-state cache (`has` short-circuits, the entry is set to
the indeterminate sentinel before recursing and to the result after); a
dictionary referent succeeds when the reference is non-nullable or
`useNullableInner` is set; otherwise the subtype list is scanned and the
first hit is rewrapped with `reference` pointing at the subtype unless the
subtype is itself a union. -/
def idlGo : Nat → ICall → Defs → TypedefCache → Option (Option Found × TypedefCache)
  | 0, _, _, _ => none
  | fuel + 1, .tyCall ty uni, defs, cache =>
    if ty.unionQ then idlGo fuel (.subtypesCall ty.subtype) defs cache
    else
      match uniqueGet defs ty.refName with
      | none => some (none, cache)
      | some def1 =>
        if def1.dtype == s2l "typedef" then
          if alHas cache def1.dname then some (alGetD cache def1.dname, cache)
          else
            let cache1 := alSet cache def1.dname none
            match idlGo fuel (.tyCall def1.tdType false) defs cache1 with
            | none => none
            | some (result, cache2) =>
              let cache3 := alSet cache2 def1.dname result
              match result with
              | some found =>
                some (some { reference := ty, dictionary := found.dictionary }, cache3)
              | none =>
                if def1.dtype == s2l "dictionary" && (uni || !ty.nullableQ) then
                  some (some { reference := ty, dictionary := def1 }, cache3)
                else idlGo fuel (.subtypesCall ty.subtype) defs cache3
        else
          if def1.dtype == s2l "dictionary" && (uni || !ty.nullableQ) then
            some (some { reference := ty, dictionary := def1 }, cache)
          else idlGo fuel (.subtypesCall ty.subtype) defs cache
  | _ + 1, .subtypesCall [], _, cache => some (none, cache)
  | fuel + 1, .subtypesCall (sub :: rest), defs, cache =>
    match idlGo fuel (.tyCall sub false) defs cache with
    | none => none
    | some (result, cache1) =>
      match result with
      | some found =>
        if sub.unionQ then some (some found, cache1)
        else some (some { reference := sub, dictionary := found.dictionary }, cache1)
      | none => idlGo fuel (.subtypesCall rest) defs cache1

/-- Entry point of the typedef/dictionary containment analysis. -/
def idlTypeIncludesDictionary (fuel : Nat) (ty : IdlType) (defs : Defs)
    (useNullableInner : Bool) (cache : TypedefCache) :
    Option (Option Found × TypedefCache) :=
  idlGo fuel (.tyCall ty useNullableInner) defs cache

mutual
/-- Structural size of a type node, used for the fuel bounds of the
containment analysis. -/
def tySize : IdlType → Nat
  | .mk _ _ _ subs => 1 + tySizeList subs
/-- Structural size of a subtype list. -/
def tySizeList : List IdlType → Nat
  | [] => 0
  | t :: ts => tySize t + tySizeList ts
end

/-- Number of `defs.unique` entries with no cache entry yet. -/
def uncachedCount {α : Type} (defs : Defs) (cache : List (List Char × α)) : Nat :=
  (defs.unique.filter (fun p => !(alHas cache p.1))).length

/-- Number of typedef entries of `defs.unique` with no cache entry yet. -/
def uncachedTypedefCount (defs : Defs) (cache : TypedefCache) : Nat :=
  (defs.unique.filter
    (fun p => p.2.dtype == s2l "typedef" && !(alHas cache p.1))).length

/-- Largest target-type size over the typedefs of `defs.unique`. -/
def tdMax (defs : Defs) : Nat :=
  (defs.unique.filter (fun p => p.2.dtype == s2l "typedef")).foldr
    (fun p m => max (tySize p.2.tdType) m) 0

/-- Fuel bound for `dictionaryIncludesRequiredField`. -/
def dictBound (defs : Defs) (cache : RequiredCache) : Nat :=
  uncachedCount defs cache + 2

/-- Fuel bound for `idlGo`. -/
def idlBound (defs : Defs) (cache : TypedefCache) : ICall → Nat
  | .tyCall t _ =>
    2 * tySize t + uncachedTypedefCount defs cache * (2 * tdMax defs + 2) + 1
  | .subtypesCall subs =>
    2 * tySizeList subs + uncachedTypedefCount defs cache * (2 * tdMax defs + 2) + 2

/-- Well-formedness of the definition index: every entry is keyed by the
name of the node it holds (as `Definitions` builds `unique`). -/
def wfDefs (defs : Defs) : Prop := ∀ p ∈ defs.unique, p.2.dname = p.1

/-- A dictionary inheriting from a name that is absent from `defs.unique`,
with no required member of its own. -/
def dictNoSuper : Defn :=
  { dname := s2l "A", dtype := s2l "dictionary",
    inheritance := some (s2l "Missing"), members := [false],
    tdType := .mk false [] false [] }

/-- A definition index containing only `dictNoSuper`. -/
def defsNoSuper : Defs := { unique := [(s2l "A", dictNoSuper)] }

/-- A pair of mutually recursive typedefs `typedef T2 T1; typedef T1 T2;`
together with a dictionary inheritance cycle `dictionary D1 : D2; and
dictionary D2 : D1;`. -/
def defsCyclic : Defs :=
  { unique :=
    [(s2l "T1", { dname := s2l "T1", dtype := s2l "typedef", inheritance := none,
                  members := [], tdType := .mk false (s2l "T2") false [] }),
     (s2l "T2", { dname := s2l "T2", dtype := s2l "typedef", inheritance := none,
                  members := [], tdType := .mk false (s2l "T1") false [] }),
     (s2l "D1", { dname := s2l "D1", dtype := s2l "dictionary",
                  inheritance := some (s2l "D2"), members := [false],
                  tdType := .mk false [] false [] }),
     (s2l "D2", { dname := s2l "D2", dtype := s2l "dictionary",
                  inheritance := some (s2l "D1"), members := [false],
                  tdType := .mk false [] false [] })] }

/-- The dictionary node `D1` of `defsCyclic`. -/
def dictD1 : Defn :=
  { dname := s2l "D1", dtype := s2l "dictionary",
    inheritance := some (s2l "D2"), members := [false],
    tdType := .mk false [] false [] }

/-- The parser-side token cursor (class `Tokeniser`): the token vector and
the current position. -/
structure TokState where
  source : List Token
  position : Nat
deriving DecidableEq

/-- `tokeniser.probe(type)`: true iff the current token exists and has the
given kind. -/
def probeT (t : TokState) (ty : List Char) : Bool :=
  match t.source[t.position]? with
  | some tok => tok.type == ty
  | none => false

/-- `tokeniser.consume(...candidates)`: the first candidate kind that
probes true consumes and returns the current token. -/
def consumeT (t : TokState) (cands : List (List Char)) : Option Token × TokState :=
  match cands with
  | [] => (none, t)
  | ty :: rest =>
    if probeT t ty then
      (t.source[t.position]?, { t with position := t.position + 1 })
    else consumeT t rest

/-- Modelled from the spec: the type node returned by
`type_with_extended_attributes` (`Type.parse` and
`ExtendedAttributes.parse` are not in the sources); only the `generic`
discriminator, which `Attribute.parse` switches on, is modelled.
`Attribute.parse` below is proved correct for every type parser. -/
structure AType where
  generic : List Char
deriving DecidableEq

/-- The token dictionary and type of an `Attribute` node as filled in by
`Attribute.parse`. -/
structure AttributeNode where
  specialTok : Option Token
  readonlyTok : Option Token
  baseTok : Option Token
  nameTok : Option Token
  terminationTok : Option Token
  idlType : AType
deriving DecidableEq

/-- Result of `Attribute.parse`: a node with the advanced cursor, the
`undefined` return with the cursor restored to the entry position
(`unconsume(start_position)`), or a thrown `WebIDLParseError`. -/
inductive AParse where
  | node (ret : AttributeNode) (t : TokState)
  | absent
  | perr (message : List Char)
deriving DecidableEq

/-- The `special` getter shared by `Attribute` and `Operation`: the value
of the special token, or the empty string when it is absent. -/
def specialValue (tok : Option Token) : List Char :=
  match tok with
  | none => []
  | some t => t.value

/-- `Attribute.parse(tokeniser, { special, noInherit, readonly })`, with
the type parser (`type_with_extended_attributes` applied to
`"attribute-type"`) passed as a function: consume an optional `inherit`
(unless suppressed), reject inherited read-only attributes, consume an
optional `readonly`, enforce the caller's read-only requirement, commit on
the `attribute` keyword (returning `absent` with the cursor restored when
it is missing), parse the type, reject `sequence`/`record` generics,
then require a name and the terminating `;`. -/
def Attribute.parse
    (typeWithExtendedAttributes : TokState → Except (List Char) (Option AType × TokState))
    (special : Option Token) (noInherit readonlyArg : Bool) (t : TokState) : AParse :=
  let st1 :=
    if special.isNone && !noInherit then consumeT t [(s2l "inherit")]
    else (special, t)
  if specialValue st1.1 == s2l "inherit" && probeT st1.2 (s2l "readonly") then
    .perr (s2l "Inherited attributes cannot be read-only")
  else
    let st2 := consumeT st1.2 [(s2l "readonly")]
    if readonlyArg && st2.1.isNone && probeT st2.2 (s2l "attribute") then
      .perr (s2l "Attributes must be readonly in this context")
    else
      let st3 := consumeT st2.2 [(s2l "attribute")]
      match st3.1 with
      | none => .absent
      | some b =>
        match typeWithExtendedAttributes st3.2 with
        | .error e => .perr e
        | .ok (none, _) => .perr (s2l "Attribute lacks a type")
        | .ok (some ty, t4) =>
          if ty.generic == s2l "sequence" || ty.generic == s2l "record" then
            .perr (s2l "Attributes cannot accept " ++ ty.generic ++ s2l " types")
          else
            let st5 := consumeT t4 [(s2l "identifier"), (s2l "async"), (s2l "required")]
            match st5.1 with
            | none => .perr (s2l "Attribute lacks a name")
            | some nmTok =>
              let st6 := consumeT st5.2 [(s2l ";")]
              match st6.1 with
              | none => .perr (s2l "Unterminated attribute, expected `;`")
              | some termTok =>
                .node { specialTok := st1.1, readonlyTok := st2.1,
                        baseTok := some b, nameTok := some nmTok,
                        terminationTok := some termTok, idlType := ty } st6.2

/-- Modelled from the spec: autofix closures are represented symbolically
by their construction site (`autofixAddExposedWindow(this)` and
`autofixConstructor(this, constructor)`); their bodies re-run the parser
on synthetic fragments, which is outside the sources. -/
inductive Autofix where
  | addExposedWindow
  | constructorOp
deriving DecidableEq

/-- Modelled from the spec: a validation diagnostic as assembled by
`validationError(token, current, name, message, options)` (`error.ts` is
not in the sources): the token the rule binds the diagnostic to, the
stable kind string, the human-readable message, and the optional
autofix. -/
structure Diag where
  token : Option Token
  kind : List Char
  message : List Char
  autofix : Option Autofix
deriving DecidableEq

/-- The token dictionary of an `Operation` node as read by
`Operation.validate`: the optional `special` and `name` tokens and the
`open` parenthesis token (which the short `stringifier;` form leaves
absent). -/
structure OperationNode where
  specialTok : Option Token
  nameTok : Option Token
  openTok : Option Token
deriving DecidableEq

/-- The `name` getter of `Operation`: empty without a name token,
otherwise the unescaped token value. -/
def Operation.name (op : OperationNode) : List Char :=
  match op.nameTok with
  | none => []
  | some tok => unescape tok.value

/-- The `special` getter of `Operation`. -/
def Operation.special (op : OperationNode) : List Char := specialValue op.specialTok

/-- The `incomplete-op` diagnostic of `Operation.validate`, bound to the
`(` token. -/
def incompleteOpDiag (op : OperationNode) : Diag :=
  { token := op.openTok, kind := s2l "incomplete-op",
    message := s2l "Regular or static operations must have both a return type and an identifier.",
    autofix := none }

/-- `Operation.validate(defs)`: the incomplete-op rule (nameless operations
whose `special` is empty or `static`, bound to the `(` token), followed by
the diagnostics of the `idlType` and argument children (passed in, since
`Type.validate` and `Argument.validate` are not in the sources). -/
def Operation.validate (op : OperationNode) (typeDiags argDiags : List Diag) :
    List Diag :=
  (if Operation.name op == [] &&
      ((Operation.special op == []) || (Operation.special op == s2l "static")) then
    [incompleteOpDiag op]
  else []) ++ typeDiags ++ argDiags

/-- Modelled from the spec: an extended attribute as read by
`Interface.validate` — its `name` (the `SimpleExtendedAttribute` name
getter; `extended-attributes.ts` is not in the sources) and its name
token. -/
structure ExtAttr where
  name : List Char
  nameTok : Option Token
deriving DecidableEq

/-- An `Interface` node as read by `Interface.validate`: the `partial`
flag (a `Container` getter over `tokens.partial`), the extended
attributes, the members reduced to their `type` discriminator and `base`
token, and the interface's name token. -/
structure InterfaceNode where
  isPartial : Bool
  extAttrs : List ExtAttr
  members : List (List Char × Option Token)
  nameTok : Option Token
deriving DecidableEq

/-- The `require-exposed` message of `Interface.validate`. -/
def msgRequireExposed : List Char :=
  s2l "Interfaces must have `[Exposed]` extended attribute. To fix, add, for example, `[Exposed=Window]`. Please also consider carefully if your interface should also be exposed in a Worker scope. Refer to the [WebIDL spec section on Exposed](https://heycam.github.io/webidl/#Exposed) for more information."

/-- The `constructor-member` message of `Interface.validate`. -/
def msgConstructorMember : List Char :=
  s2l "Constructors should now be represented as a `constructor()` operation on the interface instead of `[Constructor]` extended attribute. Refer to the [WebIDL spec section on constructor operations](https://heycam.github.io/webidl/#idl-constructors) for more information."

/-- The `no-constructible-global` message for named constructors. -/
def msgGlobalNamedCtor : List Char :=
  s2l "Interfaces marked as `[Global]` cannot have named constructors."

/-- The `no-constructible-global` message for constructor members. -/
def msgGlobalCtor : List Char :=
  s2l "Interfaces marked as `[Global]` cannot have constructors."

/-- The `require-exposed` diagnostic of `Interface.validate`, bound to the
interface's name token and carrying the `[Exposed=Window]` autofix. -/
def requireExposedDiag (i : InterfaceNode) : Diag :=
  { token := i.nameTok, kind := s2l "require-exposed",
    message := msgRequireExposed, autofix := some .addExposedWindow }

/-- The `constructor-member` diagnostic for a legacy `[Constructor]`
extended attribute, carrying the constructor-operation autofix. -/
def constructorMemberDiag (a : ExtAttr) : Diag :=
  { token := a.nameTok, kind := s2l "constructor-member",
    message := msgConstructorMember, autofix := some .constructorOp }

/-- The `no-constructible-global` diagnostic for a `[NamedConstructor]`. -/
def globalNamedCtorDiag (a : ExtAttr) : Diag :=
  { token := a.nameTok, kind := s2l "no-constructible-global",
    message := msgGlobalNamedCtor, autofix := none }

/-- The `no-constructible-global` diagnostic for a constructor member. -/
def globalCtorDiag (m : List Char × Option Token) : Diag :=
  { token := m.2, kind := s2l "no-constructible-global",
    message := msgGlobalCtor, autofix := none }

/-- `Interface.validate(defs)`: extended-attribute diagnostics first, then
the `require-exposed` rule, the legacy `[Constructor]` rule, the
`[Global]` constructibility rules, the `Container` super-class
diagnostics, and — for non-partial interfaces — the member-duplication
check (`extAttrs.validate`, `super.validate` and
`checkInterfaceMemberDuplication` are passed in; they are not in the
sources). -/
def Interface.validate (i : InterfaceNode)
    (extDiags superDiags dupDiags : List Diag) : List Diag :=
  extDiags
  ++ (if !i.isPartial &&
        i.extAttrs.all (fun a => !(a.name == s2l "Exposed")) &&
        i.extAttrs.all (fun a => !(a.name == s2l "NoInterfaceObject")) then
      [requireExposedDiag i]
    else [])
  ++ ((i.extAttrs.filter (fun a => a.name == s2l "Constructor")).map
      constructorMemberDiag)
  ++ (if i.extAttrs.any (fun a => a.name == s2l "Global") then
      ((i.extAttrs.filter (fun a => a.name == s2l "NamedConstructor")).map
        globalNamedCtorDiag)
      ++ ((i.members.filter (fun m => m.1 == s2l "constructor")).map
        globalCtorDiag)
    else [])
  ++ superDiags
  ++ (if !i.isPartial then dupDiags else [])

/-- A token vector holding `attribute x ;`. -/
def attrTokens : List Token :=
  [{ type := s2l "attribute", value := s2l "attribute", trivia := [],
     line := some 1, index := some 0 },
   { type := s2l "identifier", value := s2l "x", trivia := s2l " ",
     line := some 1, index := some 1 },
   { type := s2l ";", value := s2l ";", trivia := [],
     line := some 1, index := some 2 }]

/-- A type parser that always yields a `sequence` generic. -/
def seqTypeFn (t : TokState) : Except (List Char) (Option AType × TokState) :=
  .ok (some { generic := s2l "sequence" }, t)

/-- A type parser that always yields a non-generic type. -/
def plainTypeFn (t : TokState) : Except (List Char) (Option AType × TokState) :=
  .ok (some { generic := [] }, t)

/-- A nameless getter operation (`getter long (long x);`). -/
def opGetterNameless : OperationNode :=
  { specialTok := some ⟨s2l "getter", s2l "getter", [], some 1, some 0⟩,
    nameTok := none,
    openTok := some ⟨s2l "(", s2l "(", [], some 1, some 2⟩ }

/-- A nameless static operation. -/
def opStaticNameless : OperationNode :=
  { specialTok := some ⟨s2l "static", s2l "static", [], some 1, some 0⟩,
    nameTok := none,
    openTok := some ⟨s2l "(", s2l "(", [], some 1, some 2⟩ }

/-- `interface I {};` with no extended attributes. -/
def plainInterface : InterfaceNode :=
  { isPartial := false, extAttrs := [], members := [],
    nameTok := some ⟨s2l "identifier", s2l "I", s2l " ", some 1, some 1⟩ }

/-- `[Exposed=Window] interface J {};`. -/
def exposedInterface : InterfaceNode :=
  { isPartial := false,
    extAttrs := [{ name := s2l "Exposed", nameTok := none }],
    members := [],
    nameTok := some ⟨s2l "identifier", s2l "J", s2l " ", some 1, some 6⟩ }

example : matchDecimal (s2l "1.5e3;") = some 5 := by decide

example : matchDecimal (s2l "-.5") = some 3 := by decide

example : matchDecimal (s2l "...") = none := by decide

example : matchDecimal (s2l "1e") = none := by decide

example : matchInteger (s2l "0x1Fg") = some 4 := by decide

example : matchInteger (s2l "0x") = some 1 := by decide

example : matchInteger (s2l "-09") = some 2 := by decide

example : matchIdentifier (s2l "_foo-bar ") = some 8 := by decide

example : matchIdentifier (s2l "_1") = none := by decide

example : matchString (s2l "\"ab\"c") = some 4 := by decide

example : matchString (s2l "\"ab") = none := by decide

example : matchComment (s2l "// x\n  y") = some 7 := by decide

example : matchComment (s2l "/* a*/ /**/x") = some 11 := by decide

example : matchComment (s2l "/* a**/") = none := by decide

example : matchComment (s2l "/x") = none := by decide

example :
    tokenise (s2l "a b") =
      .toks [{ type := s2l "identifier", value := s2l "a", trivia := [],
               line := some 1, index := some 0 },
             { type := s2l "identifier", value := s2l "b", trivia := s2l " ",
               line := some 1, index := some 1 },
             { type := s2l "eof", value := [], trivia := [],
               line := none, index := none }] := by decide

example :
    tokenise (s2l "//c\n") =
      .toks [{ type := s2l "eof", value := [], trivia := s2l "//c\n",
               line := none, index := none }] := by decide

example :
    tokenise (s2l "toString") =
      .fail (.syntaxErr (s2l "toString is a reserved identifier and must not be used.")) := by
  decide

example :
    tokenise (s2l "_constructor") =
      .fail (.syntaxErr (s2l "constructor is a reserved identifier and must not be used.")) := by
  decide

theorem phase1_nil : phase1 [] = .noHit := rfl

theorem phase1_nomatch_of_flags (c : Char) (rest : List Char)
    (h1 : isWsChar c = false) (h2 : (c == '/') = false)
    (h3 : isIdentStart c = false) (h4 : (c == '"') = false) :
    phase1 (c :: rest) = .noHit := by
  simp [phase1, h1, h2, h3, h4]

theorem digitSpan_cons_of_not (c : Char) (l : List Char) (h : isDigitChar c = false) :
    digitSpan (c :: l) = 0 := by
  simp [digitSpan, List.takeWhile_cons, h]

theorem matchDecimal_dot_dot (rest : List Char) :
    matchDecimal ('.' :: '.' :: rest) = none := by
  have hd : digitSpan ('.' :: '.' :: rest) = 0 :=
    digitSpan_cons_of_not _ _ (by decide)
  have hd2 : digitSpan ('.' :: rest) = 0 :=
    digitSpan_cons_of_not _ _ (by decide)
  simp [matchDecimal, matchDecimalBody, decimalLookahead, matchDotDecimal,
    matchMantissaA, matchMantissaB, matchExpDecimal, hd, hd2]

theorem matchInteger_dot (rest : List Char) :
    matchInteger ('.' :: rest) = none := by
  simp [matchInteger, matchIntegerBody]

theorem matchIdentifier_dot (rest : List Char) :
    matchIdentifier ('.' :: rest) = none := by
  cases rest with
  | nil => simp [matchIdentifier]; decide
  | cons c1 r => simp [matchIdentifier]; decide

theorem punctuations_eq :
    punctuations = [['('], [')'], [','], ['.', '.', '.'], [':'], [';'], ['<'],
      ['='], ['>'], ['?'], ['['], [']'], ['\x7b'], ['\x7d']] := rfl

theorem phase1_dot_dot (r : List Char) : phase1 ('.' :: '.' :: r) = .noHit := by
  simp [phase1, show isWsChar '.' = false from by decide,
    show ('.' == '/') = false from by decide,
    show isIdentStart '.' = true from by decide,
    matchDecimal_dot_dot, matchInteger_dot, matchIdentifier_dot]

theorem punctFind_of_phase1_ne (cs : List Char) (h : phase1 cs ≠ .noHit) :
    punctFind cs = none := by
  match cs with
  | [] => exact absurd phase1_nil h
  | c :: rest =>
    cases hp : punctFind (c :: rest) with
    | none => rfl
    | some p =>
      exfalso
      unfold punctFind at hp
      have hmem : p ∈ punctuations := List.mem_of_find?_eq_some hp
      have hpre := List.find?_some hp
      simp only [] at hpre
      rw [punctuations_eq] at hmem
      simp only [List.mem_cons, List.not_mem_nil, or_false] at hmem
      rcases hmem with rfl | rfl | rfl | rfl | rfl | rfl | rfl | rfl | rfl | rfl | rfl | rfl | rfl | rfl
      case inr.inr.inr.inl =>
        -- the "..." punctuation: the head is `.` and the decimal, integer and
        -- identifier matchers all fail on a `..` prefix
        simp only [List.isPrefixOf, Bool.and_eq_true, beq_iff_eq] at hpre
        obtain ⟨rfl, hpre2⟩ := hpre
        cases rest with
        | nil => simp [List.isPrefixOf] at hpre2
        | cons r1 r2 =>
          simp only [List.isPrefixOf, Bool.and_eq_true, beq_iff_eq] at hpre2
          obtain ⟨rfl, -⟩ := hpre2
          exact h (phase1_dot_dot r2)
      all_goals
        simp only [List.isPrefixOf, Bool.and_eq_true, beq_iff_eq] at hpre
        obtain ⟨rfl, -⟩ := hpre
        exact h (phase1_nomatch_of_flags _ _ (by decide) (by decide) (by decide) (by decide))

theorem coverage_append (a b : List Token) :
    coverage (a ++ b) = coverage a ++ coverage b := by
  simp [coverage]

theorem coverage_single (t : Token) : coverage [t] = t.trivia ++ t.value := by
  simp [coverage]

theorem tokLoop_step_trivia (fuel : Nat) (c : Char) (rest trivia : List Char)
    (line index : Nat) (acc : List Token) (n : Nat)
    (h : phase1 (c :: rest) = .triviaMatch n) :
    tokLoop (fuel + 1) (c :: rest) trivia line index acc =
      tokLoop fuel ((c :: rest).drop n) (trivia ++ (c :: rest).take n)
        (line + nlCount ((c :: rest).take n)) index acc := by
  have hpf : punctFind (c :: rest) = none :=
    punctFind_of_phase1_ne _ (by simp [h])
  simp [tokLoop, h, hpf]

theorem tokLoop_step_token (fuel : Nat) (c : Char) (rest trivia : List Char)
    (line index : Nat) (acc : List Token) (ty : List Char) (n : Nat)
    (h : phase1 (c :: rest) = .tokenMatch ty n) :
    tokLoop (fuel + 1) (c :: rest) trivia line index acc =
      tokLoop fuel ((c :: rest).drop n) [] line (index + 1)
        (acc ++ [{ type := ty, value := (c :: rest).take n, trivia := trivia,
                   line := some line, index := some index }]) := by
  have hpf : punctFind (c :: rest) = none :=
    punctFind_of_phase1_ne _ (by simp [h])
  simp [tokLoop, h, hpf]

theorem tokLoop_step_reserved (fuel : Nat) (c : Char) (rest trivia : List Char)
    (line index : Nat) (acc : List Token) (m : List Char)
    (h : phase1 (c :: rest) = .reservedErr m) :
    tokLoop (fuel + 1) (c :: rest) trivia line index acc = .fail (.syntaxErr m) := by
  simp [tokLoop, h]

theorem tokLoop_step_punct (fuel : Nat) (c : Char) (rest trivia : List Char)
    (line index : Nat) (acc : List Token) (p : List Char)
    (h : phase1 (c :: rest) = .noHit) (hq : punctFind (c :: rest) = some p) :
    tokLoop (fuel + 1) (c :: rest) trivia line index acc =
      tokLoop fuel ((c :: rest).drop p.length) [] line (index + 1)
        (acc ++ [{ type := p, value := p, trivia := trivia,
                   line := some line, index := some index }]) := by
  simp [tokLoop, h, hq]

theorem tokLoop_step_other (fuel : Nat) (c : Char) (rest trivia : List Char)
    (line index : Nat) (acc : List Token) (n : Nat)
    (h : phase1 (c :: rest) = .noHit) (hq : punctFind (c :: rest) = none)
    (ho : matchOther (c :: rest) = some n) :
    tokLoop (fuel + 1) (c :: rest) trivia line index acc =
      tokLoop fuel ((c :: rest).drop n) [] line (index + 1)
        (acc ++ [{ type := s2l "other", value := (c :: rest).take n,
                   trivia := trivia, line := some line, index := some index }]) := by
  simp [tokLoop, h, hq, ho]

theorem punct_prefix_drop (c : Char) (rest p : List Char)
    (hq : punctFind (c :: rest) = some p) :
    p ++ (c :: rest).drop p.length = c :: rest := by
  unfold punctFind at hq
  have hpre := List.find?_some hq
  simp only [] at hpre
  obtain ⟨t, ht⟩ := (List.isPrefixOf_iff_prefix.mp hpre)
  rw [← ht, List.drop_left]

theorem tokLoop_covers (fuel : Nat) : ∀ (cs trivia : List Char)
    (line index : Nat) (acc ts : List Token),
    tokLoop fuel cs trivia line index acc = .toks ts →
    coverage ts = coverage acc ++ trivia ++ cs := by
  induction fuel with
  | zero => intro cs trivia line index acc ts h; simp [tokLoop] at h
  | succ fuel ih =>
    intro cs trivia line index acc ts h
    cases cs with
    | nil =>
      simp only [tokLoop, TokOut.toks.injEq] at h
      subst h
      simp [coverage_append, coverage_single]
    | cons c rest =>
      cases hp : phase1 (c :: rest) with
      | reservedErr m => rw [tokLoop_step_reserved fuel c rest trivia line index acc m hp] at h; cases h
      | triviaMatch n =>
        rw [tokLoop_step_trivia fuel c rest trivia line index acc n hp] at h
        rw [ih _ _ _ _ _ _ h]
        simp [List.append_assoc, List.take_append_drop]
      | tokenMatch ty n =>
        rw [tokLoop_step_token fuel c rest trivia line index acc ty n hp] at h
        rw [ih _ _ _ _ _ _ h]
        simp [coverage_append, coverage_single, List.append_assoc, List.take_append_drop]
      | noHit =>
        cases hq : punctFind (c :: rest) with
        | some p =>
          rw [tokLoop_step_punct fuel c rest trivia line index acc p hp hq] at h
          rw [ih _ _ _ _ _ _ h]
          simp [coverage_append, coverage_single, List.append_assoc,
            punct_prefix_drop c rest p hq]
        | none =>
          cases ho : matchOther (c :: rest) with
          | some n =>
            rw [tokLoop_step_other fuel c rest trivia line index acc n hp hq ho] at h
            rw [ih _ _ _ _ _ _ h]
            simp [coverage_append, coverage_single, List.append_assoc, List.take_append_drop]
          | none => simp [tokLoop, hp, hq, ho] at h

/-- C1.  For every input string `I`, concatenating `token.trivia` followed
by `token.lexeme` over the token vector produced by `tokenise I` (the
trailing `eof` token has an empty lexeme, so this includes the final
`eof.trivia`) reproduces `I` exactly, character for character. -/
theorem tokenise_trivia_coverage (s : List Char) (ts : List Token)
    (h : tokenise s = .toks ts) : coverage ts = s := by
  have := tokLoop_covers (s.length + 1) s [] 1 0 [] ts h
  simpa [coverage] using this

theorem tokenise_trivia_coverage_witness :
    tokenise (s2l " a=1") =
      .toks [{ type := s2l "identifier", value := s2l "a", trivia := s2l " ",
               line := some 1, index := some 0 },
             { type := s2l "=", value := s2l "=", trivia := [],
               line := some 1, index := some 1 },
             { type := s2l "integer", value := s2l "1", trivia := [],
               line := some 1, index := some 2 },
             { type := s2l "eof", value := [], trivia := [],
               line := none, index := none }] ∧
    coverage [{ type := s2l "identifier", value := s2l "a", trivia := s2l " ",
                line := some 1, index := some 0 },
              { type := s2l "=", value := s2l "=", trivia := [],
                line := some 1, index := some 1 },
              { type := s2l "integer", value := s2l "1", trivia := [],
                line := some 1, index := some 2 },
              { type := s2l "eof", value := [], trivia := [],
                line := none, index := none }] = s2l " a=1" :=
  ⟨by decide, tokenise_trivia_coverage _ _ (by decide)⟩

theorem tokenIndexed_nil : tokenIndexed [] := by simp [tokenIndexed]

theorem tokenIndexed_push (acc : List Token) (tok : Token)
    (hti : tokenIndexed acc) (htok : tok.index = some acc.length) :
    tokenIndexed (acc ++ [tok]) := by
  unfold tokenIndexed at hti ⊢
  simp [List.range_succ, hti, htok]

theorem tokenLinesMono_push (acc : List Token) (tok : Token) (line : Nat)
    (hmono : tokenLinesMono acc)
    (hlin : ∀ t ∈ acc, t.line.getD 1 ≤ line) (htok : tok.line = some line) :
    tokenLinesMono (acc ++ [tok]) := by
  unfold tokenLinesMono at hmono ⊢
  rw [List.pairwise_append]
  refine ⟨hmono, List.pairwise_singleton _ _, ?_⟩
  intro a ha b hb
  simp only [List.mem_singleton] at hb
  subst hb
  rw [htok]
  exact hlin a ha

theorem tokLoop_index_line (fuel : Nat) : ∀ (cs trivia : List Char)
    (line index : Nat) (acc ts : List Token),
    tokLoop fuel cs trivia line index acc = .toks ts →
    index = acc.length → tokenIndexed acc →
    (∀ t ∈ acc, t.line.getD 1 ≤ line) → tokenLinesMono acc →
    tokenIndexed ts.dropLast ∧ tokenLinesMono ts.dropLast := by
  induction fuel with
  | zero => intro cs trivia line index acc ts h; simp [tokLoop] at h
  | succ fuel ih =>
    intro cs trivia line index acc ts h hidx hti hlin hmono
    cases cs with
    | nil =>
      simp only [tokLoop, TokOut.toks.injEq] at h
      subst h
      simp only [List.dropLast_concat]
      exact ⟨hti, hmono⟩
    | cons c rest =>
      cases hp : phase1 (c :: rest) with
      | reservedErr m =>
        rw [tokLoop_step_reserved fuel c rest trivia line index acc m hp] at h; cases h
      | triviaMatch n =>
        rw [tokLoop_step_trivia fuel c rest trivia line index acc n hp] at h
        refine ih _ _ _ _ _ _ h hidx hti ?_ hmono
        intro t ht
        exact le_trans (hlin t ht) (Nat.le_add_right _ _)
      | tokenMatch ty n =>
        rw [tokLoop_step_token fuel c rest trivia line index acc ty n hp] at h
        refine ih _ _ _ _ _ _ h (by simp [hidx]) ?_ ?_ ?_
        · exact tokenIndexed_push _ _ hti (by simp [hidx])
        · intro t ht
          simp only [List.mem_append, List.mem_singleton] at ht
          rcases ht with ht | rfl
          · exact hlin t ht
          · simp
        · exact tokenLinesMono_push _ _ line hmono hlin rfl
      | noHit =>
        cases hq : punctFind (c :: rest) with
        | some p =>
          rw [tokLoop_step_punct fuel c rest trivia line index acc p hp hq] at h
          refine ih _ _ _ _ _ _ h (by simp [hidx]) ?_ ?_ ?_
          · exact tokenIndexed_push _ _ hti (by simp [hidx])
          · intro t ht
            simp only [List.mem_append, List.mem_singleton] at ht
            rcases ht with ht | rfl
            · exact hlin t ht
            · simp
          · exact tokenLinesMono_push _ _ line hmono hlin rfl
        | none =>
          cases ho : matchOther (c :: rest) with
          | some n =>
            rw [tokLoop_step_other fuel c rest trivia line index acc n hp hq ho] at h
            refine ih _ _ _ _ _ _ h (by simp [hidx]) ?_ ?_ ?_
            · exact tokenIndexed_push _ _ hti (by simp [hidx])
            · intro t ht
              simp only [List.mem_append, List.mem_singleton] at ht
              rcases ht with ht | rfl
              · exact hlin t ht
              · simp
            · exact tokenLinesMono_push _ _ line hmono hlin rfl
          | none => simp [tokLoop, hp, hq, ho] at h

/-- C6 counterexample.  The claim "every token at position `k` in the
resulting token vector has `token.index == k`" fails at the trailing `eof`
token, which is pushed without `line` and `index` fields: on the empty
input the vector is `[eof]` and its position-0 token has no index at all. -/
theorem tokenise_eof_index_cex :
    tokenise [] = .toks [{ type := s2l "eof", value := [], trivia := [],
                           line := none, index := none }] ∧
    Token.index { type := s2l "eof", value := [], trivia := [],
                  line := none, index := none } ≠ some 0 :=
  ⟨by decide, by decide⟩

/-- C6 (amended).  For every input that tokenises without error, every
token at position `k` of the token vector other than the trailing `eof`
has `token.index = some k` (the `eof` token carries no index), and the
`line` fields of those tokens are monotonically non-decreasing. -/
theorem tokenise_index_line (s : List Char) (ts : List Token)
    (h : tokenise s = .toks ts) :
    tokenIndexed ts.dropLast ∧ tokenLinesMono ts.dropLast :=
  tokLoop_index_line (s.length + 1) s [] 1 0 [] ts h rfl tokenIndexed_nil
    (by intro t ht; cases ht) (by exact List.Pairwise.nil)

theorem tokenise_index_line_witness :
    tokenIndexed
      ([{ type := s2l "identifier", value := s2l "a", trivia := s2l " ",
          line := some 1, index := some 0 },
        { type := s2l "identifier", value := s2l "b", trivia := s2l "\n",
          line := some 2, index := some 1 },
        { type := s2l "eof", value := [], trivia := [],
          line := none, index := none }] : List Token).dropLast ∧
    tokenLinesMono
      ([{ type := s2l "identifier", value := s2l "a", trivia := s2l " ",
          line := some 1, index := some 0 },
        { type := s2l "identifier", value := s2l "b", trivia := s2l "\n",
          line := some 2, index := some 1 },
        { type := s2l "eof", value := [], trivia := [],
          line := none, index := none }] : List Token).dropLast :=
  tokenise_index_line (s2l " a\nb") _ (by decide)

theorem identStart_not_ws (c : Char) (h : isIdentStart c = true) :
    isWsChar c = false := by
  cases hw : isWsChar c
  · rfl
  · exfalso
    simp only [isWsChar, Bool.or_eq_true, beq_iff_eq] at hw
    rcases hw with ((rfl | rfl) | rfl) | rfl <;> exact absurd h (by decide)

theorem identStart_ne_slash (c : Char) (h : isIdentStart c = true) :
    (c == '/') = false := by
  cases hs : (c == '/')
  · rfl
  · exfalso
    have : c = '/' := by simpa using hs
    subst this
    exact absurd h (by decide)

/-- C5.  Whenever the tokeniser loop sits at a position whose next
character routes it into the decimal/integer/identifier branch, the number
matchers fail, and the identifier regex matches a lexeme of the reserved
set, `tokenise` raises a syntax error whose bare message is the unescaped
lexeme followed by " is a reserved identifier and must not be used.".
The check fires on the raw identifier match, before the keyword rewriting
of `token.type`, so `_constructor` errors even though `constructor` is a
keyword (see the witness). -/
theorem tokenise_reserved_error (fuel : Nat) (c : Char) (rest trivia : List Char)
    (line index : Nat) (acc : List Token) (n : Nat)
    (hstart : isIdentStart c = true)
    (hdec : matchDecimal (c :: rest) = none)
    (hint : matchInteger (c :: rest) = none)
    (hid : matchIdentifier (c :: rest) = some n)
    (hres : reservedIdents.contains ((c :: rest).take n) = true) :
    tokLoop (fuel + 1) (c :: rest) trivia line index acc =
      .fail (.syntaxErr (unescape ((c :: rest).take n) ++
        s2l " is a reserved identifier and must not be used.")) := by
  have hres2 : (c :: rest).take n ∈ reservedIdents := by simpa using hres
  have hp : phase1 (c :: rest) = .reservedErr (unescape ((c :: rest).take n) ++
      s2l " is a reserved identifier and must not be used.") := by
    simp [phase1, identStart_not_ws c hstart, identStart_ne_slash c hstart,
      hstart, hdec, hint, hid, hres2]
  exact tokLoop_step_reserved fuel c rest trivia line index acc _ hp

theorem tokenise_reserved_error_witness :
    tokLoop 9 (s2l "toString") [] 1 0 [] =
      .fail (.syntaxErr (s2l "toString is a reserved identifier and must not be used.")) ∧
    tokenise (s2l "_constructor") =
      .fail (.syntaxErr (s2l "constructor is a reserved identifier and must not be used.")) := by
  refine ⟨?_, by decide⟩
  have := tokenise_reserved_error 8 't' (s2l "oString") [] 1 0 [] 8
    (by decide) (by decide) (by decide) (by decide) (by decide)
  exact this

theorem punctuations_ne_nil : ∀ p ∈ punctuations, p ≠ [] := by decide

theorem punctFind_cons_none (c : Char) (rest : List Char)
    (hne : ∀ p ∈ punctuations, p.head? ≠ some c) :
    punctFind (c :: rest) = none := by
  unfold punctFind
  apply List.find?_eq_none.mpr
  intro p hp hpre
  cases p with
  | nil => exact punctuations_ne_nil [] hp rfl
  | cons a as =>
    simp only [List.isPrefixOf, Bool.and_eq_true, beq_iff_eq] at hpre
    exact hne _ hp (by simp [hpre.1])

/-- C10.  At a position whose next character is `"` but where the string
regex `"[^"]*"` does not match (an unterminated string literal), the
tokeniser raises no error: the quote is emitted as a single token of kind
`other` (flushing the pending trivia into it) and tokenisation continues
on the rest of the input. -/
theorem tokenise_unterminated_string (fuel : Nat) (rest trivia : List Char)
    (line index : Nat) (acc : List Token)
    (h : matchString ('"' :: rest) = none) :
    tokLoop (fuel + 1) ('"' :: rest) trivia line index acc =
      tokLoop fuel rest [] line (index + 1)
        (acc ++ [{ type := s2l "other", value := ['"'], trivia := trivia,
                   line := some line, index := some index }]) := by
  have hp : phase1 ('"' :: rest) = .noHit := by
    simp [phase1, h, (by decide : isWsChar '"' = false),
      (by decide : ('"' == '/') = false), (by decide : isIdentStart '"' = false)]
  have hq : punctFind ('"' :: rest) = none := punctFind_cons_none _ _ (by decide)
  have ho : matchOther ('"' :: rest) = some 1 := by
    simp [matchOther, (by decide : isOtherChar '"' = true)]
  exact tokLoop_step_other fuel '"' rest trivia line index acc 1 hp hq ho

theorem tokenise_unterminated_string_witness :
    tokLoop 4 (s2l "\"ab") [] 1 0 [] =
      tokLoop 3 (s2l "ab") [] 1 1
        [{ type := s2l "other", value := ['"'], trivia := [],
           line := some 1, index := some 0 }] ∧
    tokenise (s2l "\"ab") =
      .toks [{ type := s2l "other", value := s2l "\"", trivia := [],
               line := some 1, index := some 0 },
             { type := s2l "identifier", value := s2l "ab", trivia := [],
               line := some 1, index := some 1 },
             { type := s2l "eof", value := [], trivia := [],
               line := none, index := none }] := by
  refine ⟨?_, by decide⟩
  have := tokenise_unterminated_string 3 (s2l "ab") [] 1 0 [] (by decide)
  exact this

theorem matchWhitespace_pos {cs : List Char} {n : Nat}
    (h : matchWhitespace cs = some n) : 0 < n := by
  simp only [matchWhitespace] at h
  split at h
  · simp at h
  · injection h with h
    omega

theorem matchComment_pos {cs : List Char} {n : Nat}
    (h : matchComment cs = some n) : 0 < n := by
  simp only [matchComment] at h
  split at h
  · simp at h
  · injection h with h
    omega

theorem matchMantissaA_pos {cs : List Char} {m : Nat}
    (h : matchMantissaA cs = some m) : 0 < m := by
  simp only [matchMantissaA] at h
  split at h
  · simp at h
  · split at h
    · injection h with h; omega
    · simp at h

theorem matchMantissaB_pos {cs : List Char} {m : Nat}
    (h : matchMantissaB cs = some m) : 0 < m := by
  simp only [matchMantissaB] at h
  split at h
  · split at h
    · simp at h
    · injection h with h; omega
  · simp at h

theorem matchExpDecimal_pos {cs : List Char} {n : Nat}
    (h : matchExpDecimal cs = some n) : 0 < n := by
  simp only [matchExpDecimal] at h
  split at h
  · simp at h
  · split at h
    · split at h
      · split at h
        · split at h
          · split at h
            · injection h with h; omega
            · simp at h
          · split at h
            · injection h with h; omega
            · simp at h
        · simp at h
      · simp at h
    · simp at h

theorem matchDotDecimal_pos {cs : List Char} {n : Nat}
    (h : matchDotDecimal cs = some n) : 0 < n := by
  simp only [matchDotDecimal] at h
  cases ha : matchMantissaA cs with
  | some m =>
    rw [ha] at h
    simp only [Option.orElse] at h
    injection h with h
    have := matchMantissaA_pos ha
    omega
  | none =>
    rw [ha] at h
    cases hb : matchMantissaB cs with
    | some m =>
      rw [hb] at h
      simp only [Option.orElse] at h
      injection h with h
      have := matchMantissaB_pos hb
      omega
    | none =>
      rw [hb] at h
      simp [Option.orElse] at h

theorem matchDecimalBody_pos {cs : List Char} {n : Nat}
    (h : matchDecimalBody cs = some n) : 0 < n := by
  simp only [matchDecimalBody] at h
  split at h
  · cases hd : matchDotDecimal cs with
    | some m =>
      rw [hd] at h
      simp only [Option.orElse] at h
      injection h with h
      subst h
      exact matchDotDecimal_pos hd
    | none =>
      rw [hd] at h
      simp only [Option.orElse] at h
      exact matchExpDecimal_pos h
  · simp at h

theorem matchDecimal_pos {cs : List Char} {n : Nat}
    (h : matchDecimal cs = some n) : 0 < n := by
  simp only [matchDecimal] at h
  split at h
  · cases hb : matchDecimalBody _ with
    | some m => rw [hb] at h; simp at h; omega
    | none => rw [hb] at h; simp at h
  · exact matchDecimalBody_pos h

theorem matchIntegerBody_pos {cs : List Char} {n : Nat}
    (h : matchIntegerBody cs = some n) : 0 < n := by
  simp only [matchIntegerBody] at h
  split at h
  · simp at h
  · injection h with h; omega
  · split at h
    · injection h with h; omega
    · injection h with h; omega
  · split at h
    · injection h with h; omega
    · simp at h

theorem matchInteger_pos {cs : List Char} {n : Nat}
    (h : matchInteger cs = some n) : 0 < n := by
  simp only [matchInteger] at h
  split at h
  · cases hb : matchIntegerBody _ with
    | some m => rw [hb] at h; simp at h; omega
    | none => rw [hb] at h; simp at h
  · exact matchIntegerBody_pos h

theorem matchIdentifier_pos {cs : List Char} {n : Nat}
    (h : matchIdentifier cs = some n) : 0 < n := by
  simp only [matchIdentifier] at h
  split at h
  · simp at h
  · split at h
    · injection h with h; omega
    · simp at h
  · split at h
    · injection h with h; omega
    · split at h
      · injection h with h; omega
      · simp at h

theorem matchString_pos {cs : List Char} {n : Nat}
    (h : matchString cs = some n) : 0 < n := by
  simp only [matchString] at h
  split at h
  · split at h
    · injection h with h; omega
    · simp at h
  · simp at h

theorem phase1_pos (cs : List Char) (n : Nat)
    (h : phase1 cs = .triviaMatch n ∨ ∃ ty, phase1 cs = .tokenMatch ty n) :
    0 < n := by
  rcases cs with _ | ⟨c, rest⟩
  · rcases h with h | ⟨ty, h⟩ <;> simp [phase1] at h
  · by_cases hws : isWsChar c
    · cases hm : matchWhitespace (c :: rest) with
      | some k =>
        have hh : phase1 (c :: rest) = .triviaMatch k := by simp [phase1, hws, hm]
        rcases h with h | ⟨ty, h⟩ <;> rw [hh] at h
        · injection h with h; subst h; exact matchWhitespace_pos hm
        · cases h
      | none =>
        have hh : phase1 (c :: rest) = .noHit := by simp [phase1, hws, hm]
        rcases h with h | ⟨ty, h⟩ <;> rw [hh] at h <;> cases h
    · by_cases hsl : c == '/'
      · cases hm : matchComment (c :: rest) with
        | some k =>
          have hh : phase1 (c :: rest) = .triviaMatch k := by
            simp [phase1, hws, hsl, hm]
          rcases h with h | ⟨ty, h⟩ <;> rw [hh] at h
          · injection h with h; subst h; exact matchComment_pos hm
          · cases h
        | none =>
          have hh : phase1 (c :: rest) = .noHit := by simp [phase1, hws, hsl, hm]
          rcases h with h | ⟨ty, h⟩ <;> rw [hh] at h <;> cases h
      · by_cases hid : isIdentStart c
        · cases hd : matchDecimal (c :: rest) with
          | some k =>
            have hh : phase1 (c :: rest) = .tokenMatch (s2l "decimal") k := by
              simp [phase1, hws, hsl, hid, hd]
            rcases h with h | ⟨ty, h⟩ <;> rw [hh] at h
            · cases h
            · injection h with h1 h2; subst h2; exact matchDecimal_pos hd
          | none =>
            cases hi : matchInteger (c :: rest) with
            | some k =>
              have hh : phase1 (c :: rest) = .tokenMatch (s2l "integer") k := by
                simp [phase1, hws, hsl, hid, hd, hi]
              rcases h with h | ⟨ty, h⟩ <;> rw [hh] at h
              · cases h
              · injection h with h1 h2; subst h2; exact matchInteger_pos hi
            | none =>
              cases hident : matchIdentifier (c :: rest) with
              | some k =>
                by_cases hres : (c :: rest).take k ∈ reservedIdents
                · have hh : phase1 (c :: rest) =
                      .reservedErr (unescape ((c :: rest).take k) ++
                        s2l " is a reserved identifier and must not be used.") := by
                    simp [phase1, hws, hsl, hid, hd, hi, hident, hres]
                  rcases h with h | ⟨ty, h⟩ <;> rw [hh] at h <;> cases h
                · by_cases hterm : (c :: rest).take k ∈ nonRegexTerminals
                  · have hh : phase1 (c :: rest) = .tokenMatch ((c :: rest).take k) k := by
                      simp [phase1, hws, hsl, hid, hd, hi, hident, hres, hterm]
                    rcases h with h | ⟨ty, h⟩ <;> rw [hh] at h
                    · cases h
                    · injection h with h1 h2; subst h2; exact matchIdentifier_pos hident
                  · have hh : phase1 (c :: rest) = .tokenMatch (s2l "identifier") k := by
                      simp [phase1, hws, hsl, hid, hd, hi, hident, hres, hterm]
                    rcases h with h | ⟨ty, h⟩ <;> rw [hh] at h
                    · cases h
                    · injection h with h1 h2; subst h2; exact matchIdentifier_pos hident
              | none =>
                have hh : phase1 (c :: rest) = .noHit := by
                  simp [phase1, hws, hsl, hid, hd, hi, hident]
                rcases h with h | ⟨ty, h⟩ <;> rw [hh] at h <;> cases h
        · by_cases hq : c == '"'
          · cases hs : matchString (c :: rest) with
            | some k =>
              have hh : phase1 (c :: rest) = .tokenMatch (s2l "string") k := by
                simp [phase1, hws, hsl, hid, hq, hs]
              rcases h with h | ⟨ty, h⟩ <;> rw [hh] at h
              · cases h
              · injection h with h1 h2; subst h2; exact matchString_pos hs
            | none =>
              have hh : phase1 (c :: rest) = .noHit := by
                simp [phase1, hws, hsl, hid, hq, hs]
              rcases h with h | ⟨ty, h⟩ <;> rw [hh] at h <;> cases h
          · have hh : phase1 (c :: rest) = .noHit := by
              simp [phase1, hws, hsl, hid, hq]
            rcases h with h | ⟨ty, h⟩ <;> rw [hh] at h <;> cases h

theorem punctFind_len_pos {cs p : List Char} (h : punctFind cs = some p) :
    0 < p.length := by
  unfold punctFind at h
  have hmem : p ∈ punctuations := List.mem_of_find?_eq_some h
  have := punctuations_ne_nil p hmem
  exact List.length_pos.mpr this

/-- The fuelled loop never exhausts its fuel when the fuel exceeds the
number of remaining characters: every iteration consumes at least one
character.  In particular `tokenise` never returns the `outOfFuel`
artifact of the encoding. -/
theorem tokLoop_progress (fuel : Nat) : ∀ (cs trivia : List Char)
    (line index : Nat) (acc : List Token), cs.length < fuel →
    tokLoop fuel cs trivia line index acc ≠ .fail .outOfFuel := by
  induction fuel with
  | zero => intro cs trivia line index acc h; omega
  | succ fuel ih =>
    intro cs trivia line index acc hlen
    cases cs with
    | nil => simp [tokLoop]
    | cons c rest =>
      have hlen1 : (c :: rest).length ≤ fuel := Nat.lt_succ_iff.mp hlen
      cases hp : phase1 (c :: rest) with
      | reservedErr m =>
        rw [tokLoop_step_reserved fuel c rest trivia line index acc m hp]
        simp
      | triviaMatch n =>
        rw [tokLoop_step_trivia fuel c rest trivia line index acc n hp]
        refine ih _ _ _ _ _ ?_
        have := phase1_pos (c :: rest) n (Or.inl hp)
        simp only [List.length_drop]
        simp only [List.length_cons] at hlen1
        omega
      | tokenMatch ty n =>
        rw [tokLoop_step_token fuel c rest trivia line index acc ty n hp]
        refine ih _ _ _ _ _ ?_
        have := phase1_pos (c :: rest) n (Or.inr ⟨ty, hp⟩)
        simp only [List.length_drop]
        simp only [List.length_cons] at hlen1
        omega
      | noHit =>
        cases hq : punctFind (c :: rest) with
        | some p =>
          rw [tokLoop_step_punct fuel c rest trivia line index acc p hp hq]
          refine ih _ _ _ _ _ ?_
          have := punctFind_len_pos hq
          simp only [List.length_drop]
          simp only [List.length_cons] at hlen1
          omega
        | none =>
          cases ho : matchOther (c :: rest) with
          | some n =>
            rw [tokLoop_step_other fuel c rest trivia line index acc n hp hq ho]
            refine ih _ _ _ _ _ ?_
            have hn : n = 1 := by
              simp only [matchOther] at ho
              split at ho
              · injection ho with ho; omega
              · simp at ho
            simp only [List.length_drop]
            simp only [List.length_cons] at hlen1
            omega
          | none => simp [tokLoop, hp, hq, ho]

theorem tokenise_no_fuel_exhaustion (s : List Char) :
    tokenise s ≠ .fail .outOfFuel :=
  tokLoop_progress (s.length + 1) s [] 1 0 [] (Nat.lt_succ_self _)

/-- The spec scenario: `dictionary D { required long x; }; typedef D T;`.
`dictionaryIncludesRequiredField(D)` is true and
`idlTypeIncludesDictionary(T)` resolves to `D`. -/
example :
    (let dictD : Defn :=
      { dname := s2l "D", dtype := s2l "dictionary", inheritance := none,
        members := [true], tdType := .mk false [] false [] }
    let tdT : Defn :=
      { dname := s2l "T", dtype := s2l "typedef", inheritance := none,
        members := [], tdType := .mk false (s2l "D") false [] }
    let defs : Defs := { unique := [(s2l "D", dictD), (s2l "T", tdT)] }
    (dictionaryIncludesRequiredField 3 dictD defs []).map (fun r => r.1) = some (some true) ∧
    (idlTypeIncludesDictionary 3 (.mk false (s2l "T") false []) defs false []).map
        (fun r => (r.1.map (fun f => f.dictionary.dname))) = some (some (s2l "D"))) := by
  exact ⟨rfl, rfl⟩

/-- C9.  For every dictionary node whose `inheritance` field names a
definition that is absent from `defs.unique`, a fresh run of
`dictionaryIncludesRequiredField` returns `true` regardless of whether any
member of the dictionary (or of its known ancestors) is required: the
source returns `true` as soon as the superdictionary lookup fails, before
the members are inspected — and it leaves the cache entry at the
indeterminate sentinel. -/
theorem dictRF_unknown_inheritance_true (fuel : Nat) (dict : Defn)
    (defs : Defs) (cache : RequiredCache) (inh : List Char)
    (h1 : dict.inheritance = some inh)
    (h2 : uniqueGet defs inh = none)
    (h3 : alHas cache dict.dname = false) :
    dictionaryIncludesRequiredField (fuel + 1) dict defs cache =
      some (some true, alSet cache dict.dname none) := by
  simp [dictionaryIncludesRequiredField, h1, h2, h3]

theorem dictRF_unknown_inheritance_true_witness :
    dictionaryIncludesRequiredField 5 dictNoSuper defsNoSuper [] =
      some (some true, [(s2l "A", none)]) :=
  dictRF_unknown_inheritance_true 4 dictNoSuper defsNoSuper [] (s2l "Missing")
    rfl rfl rfl

/-- C2 (the code evaluated at the failing input).  The first fresh call on
`dictNoSuper` returns `true` but — because the early `return true` skips
the final cache write — leaves the cache entry at the indeterminate
sentinel; the second call sharing that cache hits `has` and returns the
stored `undefined` (falsy), not `true`.  The analyses are therefore not
deterministic across calls that share the cache. -/
theorem dictRF_not_deterministic :
    dictionaryIncludesRequiredField 5 dictNoSuper defsNoSuper [] =
      some (some true, [(s2l "A", none)]) ∧
    dictionaryIncludesRequiredField 5 dictNoSuper defsNoSuper [(s2l "A", none)] =
      some (none, [(s2l "A", none)]) ∧
    (some true : Option Bool) ≠ none :=
  ⟨rfl, rfl, by decide⟩

theorem alHas_alSet {α : Type} (cache : List (List Char × α)) (k x : List Char)
    (v : α) : alHas (alSet cache k v) x = ((k == x) || alHas cache x) := by
  simp [alHas, alSet]

theorem alHas_alSet_mono {α : Type} (cache : List (List Char × α))
    (k x : List Char) (v : α) (h : alHas cache x = true) :
    alHas (alSet cache k v) x = true := by
  simp [alHas_alSet, h]

theorem lengthFilterMono {α : Type} (l : List α) (p q : α → Bool)
    (hpq : ∀ a ∈ l, q a = true → p a = true) :
    (l.filter q).length ≤ (l.filter p).length := by
  induction l with
  | nil => simp
  | cons a l ih =>
    have ih2 := ih (fun b hb => hpq b (List.mem_cons_of_mem a hb))
    by_cases hq : q a = true
    · have hp := hpq a (List.mem_cons_self a l) hq
      simp [List.filter_cons, hq, hp]
      omega
    · simp only [Bool.not_eq_true] at hq
      by_cases hp : p a = true
      · simp [List.filter_cons, hq, hp]
        omega
      · simp only [Bool.not_eq_true] at hp
        simp [List.filter_cons, hq, hp]
        omega

theorem lengthFilterLt {α : Type} (l : List α) (p q : α → Bool)
    (hpq : ∀ a ∈ l, q a = true → p a = true)
    (a0 : α) (ha : a0 ∈ l) (hp0 : p a0 = true) (hq0 : q a0 = false) :
    (l.filter q).length < (l.filter p).length := by
  induction l with
  | nil => cases ha
  | cons a l ih =>
    have hmono := lengthFilterMono l p q (fun b hb => hpq b (List.mem_cons_of_mem a hb))
    rcases List.mem_cons.mp ha with rfl | ha2
    · simp [List.filter_cons, hp0, hq0]
      omega
    · have ih2 := ih (fun b hb => hpq b (List.mem_cons_of_mem a hb)) ha2
      by_cases hq : q a = true
      · have hp := hpq a (List.mem_cons_self a l) hq
        simp [List.filter_cons, hq, hp]
        omega
      · simp only [Bool.not_eq_true] at hq
        by_cases hp : p a = true
        · simp [List.filter_cons, hq, hp]
          omega
        · simp only [Bool.not_eq_true] at hp
          simp [List.filter_cons, hq, hp]
          omega

theorem uncachedCount_alSet_le {α : Type} (defs : Defs)
    (cache : List (List Char × α)) (k : List Char) (v : α) :
    uncachedCount defs (alSet cache k v) ≤ uncachedCount defs cache := by
  apply lengthFilterMono
  intro p _ hq
  simp only [Bool.not_eq_true', alHas_alSet, Bool.or_eq_false_iff] at hq ⊢
  exact hq.2

theorem uncachedCount_alSet_lt {α : Type} (defs : Defs)
    (cache : List (List Char × α)) (k : List Char) (v : α)
    (p0 : List Char × Defn) (hmem : p0 ∈ defs.unique) (hk : p0.1 = k)
    (hnot : alHas cache k = false) :
    uncachedCount defs (alSet cache k v) < uncachedCount defs cache := by
  apply lengthFilterLt (defs.unique)
    (fun p => !(alHas cache p.1)) (fun p => !(alHas (alSet cache k v) p.1))
    ?_ p0 hmem ?_ ?_
  · intro p _ hq
    simp only [Bool.not_eq_true', alHas_alSet, Bool.or_eq_false_iff] at hq ⊢
    exact hq.2
  · simp [hk, hnot]
  · simp [hk, alHas_alSet]

theorem uncachedTypedefCount_mono (defs : Defs) (c1 c2 : TypedefCache)
    (h : ∀ k, alHas c1 k = true → alHas c2 k = true) :
    uncachedTypedefCount defs c2 ≤ uncachedTypedefCount defs c1 := by
  apply lengthFilterMono
  intro p _ hq
  simp only [Bool.and_eq_true, Bool.not_eq_true'] at hq ⊢
  refine ⟨hq.1, ?_⟩
  cases hc : alHas c1 p.1
  · rfl
  · rw [h p.1 hc] at hq
    exact hq.2

theorem uncachedTypedefCount_alSet_le (defs : Defs) (cache : TypedefCache)
    (k : List Char) (v : Option Found) :
    uncachedTypedefCount defs (alSet cache k v) ≤ uncachedTypedefCount defs cache := by
  apply uncachedTypedefCount_mono
  intro x hx
  exact alHas_alSet_mono cache k x v hx

theorem uncachedTypedefCount_alSet_lt (defs : Defs) (cache : TypedefCache)
    (k : List Char) (v : Option Found)
    (p0 : List Char × Defn) (hmem : p0 ∈ defs.unique) (hk : p0.1 = k)
    (htd : (p0.2.dtype == s2l "typedef") = true)
    (hnot : alHas cache k = false) :
    uncachedTypedefCount defs (alSet cache k v) < uncachedTypedefCount defs cache := by
  apply lengthFilterLt (defs.unique)
    (fun p => p.2.dtype == s2l "typedef" && !(alHas cache p.1))
    (fun p => p.2.dtype == s2l "typedef" && !(alHas (alSet cache k v) p.1))
    ?_ p0 hmem ?_ ?_
  · intro p _ hq
    simp only [Bool.and_eq_true, Bool.not_eq_true'] at hq ⊢
    refine ⟨hq.1, ?_⟩
    have h2 := hq.2
    rw [alHas_alSet] at h2
    simp only [Bool.or_eq_false_iff] at h2
    exact h2.2
  · simp [htd, hk, hnot]
  · simp [hk, alHas_alSet]

theorem uniqueGet_props (defs : Defs) (k : List Char) (d : Defn)
    (h : uniqueGet defs k = some d) :
    ∃ p ∈ defs.unique, p.1 = k ∧ p.2 = d := by
  unfold uniqueGet at h
  cases hf : defs.unique.find? (fun p => p.1 == k) with
  | none => rw [hf] at h; cases h
  | some p =>
    rw [hf] at h
    simp only [Option.map_some'] at h
    injection h with h
    subst h
    refine ⟨p, List.mem_of_find?_eq_some hf, ?_, rfl⟩
    have := List.find?_some hf
    simpa using this

theorem tdMax_le (defs : Defs) (k : List Char) (d : Defn)
    (h : uniqueGet defs k = some d) (htd : (d.dtype == s2l "typedef") = true) :
    tySize d.tdType ≤ tdMax defs := by
  obtain ⟨p, hmem, hk, hd⟩ := uniqueGet_props defs k d h
  unfold tdMax
  have hmem2 : p ∈ defs.unique.filter (fun p => p.2.dtype == s2l "typedef") := by
    apply List.mem_filter.mpr
    exact ⟨hmem, by rw [hd]; exact htd⟩
  subst hd
  generalize defs.unique.filter (fun p => p.2.dtype == s2l "typedef") = l at hmem2
  induction l with
  | nil => cases hmem2
  | cons a l ih =>
    rcases List.mem_cons.mp hmem2 with rfl | h2
    · simp only [List.foldr_cons]
      exact le_max_left _ _
    · simp only [List.foldr_cons]
      exact le_trans (ih h2) (le_max_right _ _)

theorem tySize_eq (t : IdlType) : tySize t = 1 + tySizeList t.subtype := by
  cases t with
  | mk u r q subs => simp [tySize, IdlType.subtype]

theorem tySize_pos (t : IdlType) : 0 < tySize t := by
  rw [tySize_eq]; omega

theorem tySizeList_mem_le (t : IdlType) (ts : List IdlType) (h : t ∈ ts) :
    tySize t ≤ tySizeList ts := by
  induction ts with
  | nil => cases h
  | cons a l ih =>
    rcases List.mem_cons.mp h with rfl | h2
    · simp only [tySizeList]; omega
    · have := ih h2
      simp only [tySizeList]; omega

theorem dictRF_step (fuel : Nat) (dict : Defn) (defs : Defs)
    (cache : RequiredCache) (inh : List Char) (superdict : Defn)
    (hhasF : alHas cache dict.dname = false)
    (hinh : dict.inheritance = some inh)
    (hu : uniqueGet defs inh = some superdict) :
    dictionaryIncludesRequiredField (fuel + 1) dict defs cache =
      match dictionaryIncludesRequiredField fuel superdict defs
          (alSet cache dict.dname none) with
      | none => none
      | some (r, cache2) =>
        if r.getD false then some (some true, cache2)
        else
          some (some (dict.members.any (fun b => b)),
            alSet cache2 dict.dname (some (dict.members.any (fun b => b)))) := by
  simp [dictionaryIncludesRequiredField, hhasF, hinh, hu]

theorem dictRF_step2 (fuel : Nat) (dict : Defn) (defs : Defs)
    (cache : RequiredCache) (inh : List Char) (superdict : Defn)
    (r : Option Bool) (c2 : RequiredCache)
    (hhasF : alHas cache dict.dname = false)
    (hinh : dict.inheritance = some inh)
    (hu : uniqueGet defs inh = some superdict)
    (hres : dictionaryIncludesRequiredField fuel superdict defs
      (alSet cache dict.dname none) = some (r, c2)) :
    dictionaryIncludesRequiredField (fuel + 1) dict defs cache =
      (if r.getD false then some (some true, c2)
       else
         some (some (dict.members.any (fun b => b)),
           alSet c2 dict.dname (some (dict.members.any (fun b => b))))) := by
  rw [dictRF_step fuel dict defs cache inh superdict hhasF hinh hu, hres]

theorem dictRF_stable_inner : ∀ (fuel : Nat) (dict : Defn) (defs : Defs)
    (cache : RequiredCache),
    wfDefs defs →
    (alHas cache dict.dname = true ∨ ∃ p ∈ defs.unique, p.1 = dict.dname) →
    uncachedCount defs cache + 1 ≤ fuel →
    dictionaryIncludesRequiredField (fuel + 1) dict defs cache =
      dictionaryIncludesRequiredField fuel dict defs cache ∧
    (dictionaryIncludesRequiredField fuel dict defs cache).isSome = true := by
  intro fuel
  induction fuel with
  | zero => intro dict defs cache _ _ hb; omega
  | succ fuel ih =>
    intro dict defs cache hwf hdisj hb
    by_cases hhas : alHas cache dict.dname = true
    · refine ⟨by simp [dictionaryIncludesRequiredField, hhas],
        by simp [dictionaryIncludesRequiredField, hhas]⟩
    · have hhasF : alHas cache dict.dname = false := by simpa using hhas
      rcases hdisj with hcached | ⟨p0, hp0mem, hp0⟩
      · exact absurd hcached hhas
      · cases hinh : dict.inheritance with
        | none =>
          refine ⟨by simp [dictionaryIncludesRequiredField, hhasF, hinh],
            by simp [dictionaryIncludesRequiredField, hhasF, hinh]⟩
        | some inh =>
          cases hu : uniqueGet defs inh with
          | none =>
            refine ⟨by simp [dictionaryIncludesRequiredField, hhasF, hinh, hu],
              by simp [dictionaryIncludesRequiredField, hhasF, hinh, hu]⟩
          | some superdict =>
            have hkeys : ∃ q ∈ defs.unique, q.1 = superdict.dname := by
              obtain ⟨q, hqmem, hq1, hq2⟩ := uniqueGet_props defs inh superdict hu
              refine ⟨q, hqmem, ?_⟩
              rw [← hq2]
              exact (hwf q hqmem).symm
            have hdec : uncachedCount defs (alSet cache dict.dname none) + 1 ≤ fuel := by
              have hlt := uncachedCount_alSet_lt defs cache dict.dname
                (none : Option Bool) p0 hp0mem hp0 hhasF
              omega
            have hih := ih superdict defs (alSet cache dict.dname none) hwf
              (Or.inr hkeys) hdec
            obtain ⟨res, hres⟩ := Option.isSome_iff_exists.mp hih.2
            rcases res with ⟨r, c2⟩
            have hres1 : dictionaryIncludesRequiredField (fuel + 1) superdict defs
                (alSet cache dict.dname none) = some (r, c2) := hih.1.trans hres
            constructor
            · rw [dictRF_step2 (fuel + 1) dict defs cache inh superdict r c2 hhasF hinh hu hres1,
                dictRF_step2 fuel dict defs cache inh superdict r c2 hhasF hinh hu hres]
            · rw [dictRF_step2 fuel dict defs cache inh superdict r c2 hhasF hinh hu hres]
              split <;> simp

theorem dictRF_stable (fuel : Nat) (dict : Defn) (defs : Defs)
    (cache : RequiredCache) (hwf : wfDefs defs)
    (hb : dictBound defs cache ≤ fuel) :
    dictionaryIncludesRequiredField (fuel + 1) dict defs cache =
      dictionaryIncludesRequiredField fuel dict defs cache ∧
    (dictionaryIncludesRequiredField fuel dict defs cache).isSome = true := by
  by_cases hdisj : alHas cache dict.dname = true ∨ ∃ p ∈ defs.unique, p.1 = dict.dname
  · refine dictRF_stable_inner fuel dict defs cache hwf hdisj ?_
    unfold dictBound at hb
    omega
  · obtain ⟨k, rfl⟩ : ∃ k, fuel = k + 1 := by
      refine ⟨fuel - 1, ?_⟩
      unfold dictBound at hb
      omega
    have hhasF : alHas cache dict.dname = false := by
      cases h : alHas cache dict.dname
      · rfl
      · exact absurd (Or.inl h) hdisj
    cases hinh : dict.inheritance with
    | none =>
      refine ⟨by simp [dictionaryIncludesRequiredField, hhasF, hinh],
        by simp [dictionaryIncludesRequiredField, hhasF, hinh]⟩
    | some inh =>
      cases hu : uniqueGet defs inh with
      | none =>
        refine ⟨by simp [dictionaryIncludesRequiredField, hhasF, hinh, hu],
          by simp [dictionaryIncludesRequiredField, hhasF, hinh, hu]⟩
      | some superdict =>
        have hkeys : ∃ q ∈ defs.unique, q.1 = superdict.dname := by
          obtain ⟨q, hqmem, hq1, hq2⟩ := uniqueGet_props defs inh superdict hu
          refine ⟨q, hqmem, ?_⟩
          rw [← hq2]
          exact (hwf q hqmem).symm
        have hdec : uncachedCount defs (alSet cache dict.dname none) + 1 ≤ k := by
          have hle := uncachedCount_alSet_le defs cache dict.dname (none : Option Bool)
          unfold dictBound at hb
          omega
        have hih := dictRF_stable_inner k superdict defs (alSet cache dict.dname none)
          hwf (Or.inr hkeys) hdec
        obtain ⟨res, hres⟩ := Option.isSome_iff_exists.mp hih.2
        rcases res with ⟨r, c2⟩
        have hres1 : dictionaryIncludesRequiredField (k + 1) superdict defs
            (alSet cache dict.dname none) = some (r, c2) := hih.1.trans hres
        constructor
        · rw [dictRF_step2 (k + 1) dict defs cache inh superdict r c2 hhasF hinh hu hres1,
            dictRF_step2 k dict defs cache inh superdict r c2 hhasF hinh hu hres]
        · rw [dictRF_step2 k dict defs cache inh superdict r c2 hhasF hinh hu hres]
          split <;> simp

theorem dictRF_fuel_indep (dict : Defn) (defs : Defs) (cache : RequiredCache)
    (hwf : wfDefs defs) (f1 f2 : Nat) (h1 : dictBound defs cache ≤ f1)
    (h2 : dictBound defs cache ≤ f2) :
    dictionaryIncludesRequiredField f1 dict defs cache =
      dictionaryIncludesRequiredField f2 dict defs cache ∧
    (dictionaryIncludesRequiredField f1 dict defs cache).isSome = true := by
  have key : ∀ f, dictBound defs cache ≤ f →
      dictionaryIncludesRequiredField f dict defs cache =
        dictionaryIncludesRequiredField (dictBound defs cache) dict defs cache := by
    intro f hf
    induction f, hf using Nat.le_induction with
    | base => rfl
    | succ n hn ihn => rw [(dictRF_stable n dict defs cache hwf hn).1, ihn]
  refine ⟨by rw [key f1 h1, key f2 h2], ?_⟩
  rw [key f1 h1]
  exact (dictRF_stable (dictBound defs cache) dict defs cache hwf le_rfl).2

theorem somePairInv {α β : Type} {a r : α} {b c : β}
    (h : some (a, b) = some (r, c)) : a = r ∧ b = c := by
  injection h with h
  exact ⟨congrArg Prod.fst h, congrArg Prod.snd h⟩

theorem idlGo_cache_mono : ∀ (fuel : Nat) (call : ICall) (defs : Defs)
    (cache : TypedefCache) (r : Option Found) (c2 : TypedefCache),
    idlGo fuel call defs cache = some (r, c2) →
    ∀ k, alHas cache k = true → alHas c2 k = true := by
  intro fuel
  induction fuel with
  | zero => intro call defs cache r c2 h; simp [idlGo] at h
  | succ fuel ih =>
    intro call defs cache r c2 h k hk
    cases call with
    | subtypesCall subs =>
      cases subs with
      | nil =>
        simp only [idlGo] at h
        obtain ⟨_, hc⟩ := somePairInv h
        rw [← hc]
        exact hk
      | cons sub rest =>
        simp only [idlGo] at h
        split at h
        · exact Option.noConfusion h
        · rename_i result cache1 heq1
          have hk1 := ih (.tyCall sub false) defs cache result cache1 heq1 k hk
          split at h
          · split at h <;>
              · obtain ⟨_, hc⟩ := somePairInv h
                rw [← hc]
                exact hk1
          · exact ih (.subtypesCall rest) defs cache1 r c2 h k hk1
    | tyCall ty uni =>
      simp only [idlGo] at h
      split at h
      · exact ih (.subtypesCall ty.subtype) defs cache r c2 h k hk
      · split at h
        · obtain ⟨_, hc⟩ := somePairInv h
          rw [← hc]
          exact hk
        · rename_i def1 heqU
          split at h
          · split at h
            · obtain ⟨_, hc⟩ := somePairInv h
              rw [← hc]
              exact hk
            · split at h
              · exact Option.noConfusion h
              · rename_i result cache2 heq2
                have hk2 := ih (.tyCall def1.tdType false) defs
                  (alSet cache def1.dname none) result cache2 heq2 k
                  (alHas_alSet_mono cache def1.dname k none hk)
                split at h
                · obtain ⟨_, hc⟩ := somePairInv h
                  rw [← hc]
                  exact alHas_alSet_mono cache2 def1.dname k _ hk2
                · split at h
                  · obtain ⟨_, hc⟩ := somePairInv h
                    rw [← hc]
                    exact alHas_alSet_mono cache2 def1.dname k _ hk2
                  · exact ih (.subtypesCall ty.subtype) defs
                      (alSet cache2 def1.dname none) r c2 h k
                      (alHas_alSet_mono cache2 def1.dname k none hk2)
          · split at h
            · obtain ⟨_, hc⟩ := somePairInv h
              rw [← hc]
              exact hk
            · exact ih (.subtypesCall ty.subtype) defs cache r c2 h k hk

theorem idlGo_sub_nil (fuel : Nat) (defs : Defs) (cache : TypedefCache) :
    idlGo (fuel + 1) (.subtypesCall []) defs cache = some (none, cache) := by
  simp [idlGo]

theorem idlGo_sub_step (fuel : Nat) (sub : IdlType) (rest : List IdlType)
    (defs : Defs) (cache : TypedefCache) (result : Option Found)
    (cache1 : TypedefCache)
    (hres : idlGo fuel (.tyCall sub false) defs cache = some (result, cache1)) :
    idlGo (fuel + 1) (.subtypesCall (sub :: rest)) defs cache =
      match result with
      | some found =>
        if sub.unionQ then some (some found, cache1)
        else some (some { reference := sub, dictionary := found.dictionary }, cache1)
      | none => idlGo fuel (.subtypesCall rest) defs cache1 := by
  cases result with
  | some found => simp [idlGo, hres]
  | none => simp [idlGo, hres]

theorem idlGo_ty_union (fuel : Nat) (ty : IdlType) (uni : Bool) (defs : Defs)
    (cache : TypedefCache) (hun : ty.unionQ = true) :
    idlGo (fuel + 1) (.tyCall ty uni) defs cache =
      idlGo fuel (.subtypesCall ty.subtype) defs cache := by
  simp [idlGo, hun]

theorem idlGo_ty_nodef (fuel : Nat) (ty : IdlType) (uni : Bool) (defs : Defs)
    (cache : TypedefCache) (hun : ty.unionQ = false)
    (hu : uniqueGet defs ty.refName = none) :
    idlGo (fuel + 1) (.tyCall ty uni) defs cache = some (none, cache) := by
  simp [idlGo, hun, hu]

theorem idlGo_ty_cached (fuel : Nat) (ty : IdlType) (uni : Bool) (defs : Defs)
    (cache : TypedefCache) (def1 : Defn) (hun : ty.unionQ = false)
    (hu : uniqueGet defs ty.refName = some def1)
    (htd : (def1.dtype == s2l "typedef") = true)
    (hhas : alHas cache def1.dname = true) :
    idlGo (fuel + 1) (.tyCall ty uni) defs cache =
      some (alGetD cache def1.dname, cache) := by
  simp [idlGo, hun, hu, htd, hhas]

theorem idlGo_ty_typedef_step (fuel : Nat) (ty : IdlType) (uni : Bool)
    (defs : Defs) (cache : TypedefCache) (def1 : Defn)
    (hun : ty.unionQ = false) (hu : uniqueGet defs ty.refName = some def1)
    (htd : (def1.dtype == s2l "typedef") = true)
    (hhasF : alHas cache def1.dname = false) :
    idlGo (fuel + 1) (.tyCall ty uni) defs cache =
      match idlGo fuel (.tyCall def1.tdType false) defs
          (alSet cache def1.dname none) with
      | none => none
      | some (result, cache2) =>
        match result with
        | some found =>
          some (some { reference := ty, dictionary := found.dictionary },
            alSet cache2 def1.dname result)
        | none =>
          if def1.dtype == s2l "dictionary" && (uni || !ty.nullableQ) then
            some (some { reference := ty, dictionary := def1 },
              alSet cache2 def1.dname result)
          else idlGo fuel (.subtypesCall ty.subtype) defs
            (alSet cache2 def1.dname result) := by
  simp [idlGo, hun, hu, htd, hhasF]

theorem idlGo_ty_nontypedef (fuel : Nat) (ty : IdlType) (uni : Bool)
    (defs : Defs) (cache : TypedefCache) (def1 : Defn)
    (hun : ty.unionQ = false) (hu : uniqueGet defs ty.refName = some def1)
    (htd : (def1.dtype == s2l "typedef") = false) :
    idlGo (fuel + 1) (.tyCall ty uni) defs cache =
      if def1.dtype == s2l "dictionary" && (uni || !ty.nullableQ) then
        some (some { reference := ty, dictionary := def1 }, cache)
      else idlGo fuel (.subtypesCall ty.subtype) defs cache := by
  simp [idlGo, hun, hu, htd]

theorem idlGo_sub_found (fuel : Nat) (sub : IdlType) (rest : List IdlType)
    (defs : Defs) (cache : TypedefCache) (found : Found) (cache1 : TypedefCache)
    (hres : idlGo fuel (.tyCall sub false) defs cache = some (some found, cache1)) :
    idlGo (fuel + 1) (.subtypesCall (sub :: rest)) defs cache =
      if sub.unionQ then some (some found, cache1)
      else some (some { reference := sub, dictionary := found.dictionary }, cache1) := by
  rw [idlGo_sub_step fuel sub rest defs cache (some found) cache1 hres]

theorem idlGo_sub_none (fuel : Nat) (sub : IdlType) (rest : List IdlType)
    (defs : Defs) (cache : TypedefCache) (cache1 : TypedefCache)
    (hres : idlGo fuel (.tyCall sub false) defs cache = some (none, cache1)) :
    idlGo (fuel + 1) (.subtypesCall (sub :: rest)) defs cache =
      idlGo fuel (.subtypesCall rest) defs cache1 := by
  rw [idlGo_sub_step fuel sub rest defs cache none cache1 hres]

theorem idlGo_ty_typedef_found (fuel : Nat) (ty : IdlType) (uni : Bool)
    (defs : Defs) (cache : TypedefCache) (def1 : Defn) (found : Found)
    (cache2 : TypedefCache)
    (hun : ty.unionQ = false) (hu : uniqueGet defs ty.refName = some def1)
    (htd : (def1.dtype == s2l "typedef") = true)
    (hhasF : alHas cache def1.dname = false)
    (hres : idlGo fuel (.tyCall def1.tdType false) defs
      (alSet cache def1.dname none) = some (some found, cache2)) :
    idlGo (fuel + 1) (.tyCall ty uni) defs cache =
      some (some { reference := ty, dictionary := found.dictionary },
        alSet cache2 def1.dname (some found)) := by
  rw [idlGo_ty_typedef_step fuel ty uni defs cache def1 hun hu htd hhasF, hres]

theorem idlGo_ty_typedef_none (fuel : Nat) (ty : IdlType) (uni : Bool)
    (defs : Defs) (cache : TypedefCache) (def1 : Defn) (cache2 : TypedefCache)
    (hun : ty.unionQ = false) (hu : uniqueGet defs ty.refName = some def1)
    (htd : (def1.dtype == s2l "typedef") = true)
    (hhasF : alHas cache def1.dname = false)
    (hres : idlGo fuel (.tyCall def1.tdType false) defs
      (alSet cache def1.dname none) = some (none, cache2))
    (hdictF : (def1.dtype == s2l "dictionary" && (uni || !ty.nullableQ)) = false) :
    idlGo (fuel + 1) (.tyCall ty uni) defs cache =
      idlGo fuel (.subtypesCall ty.subtype) defs (alSet cache2 def1.dname none) := by
  rw [idlGo_ty_typedef_step fuel ty uni defs cache def1 hun hu htd hhasF, hres]
  simp [hdictF]

theorem idlGo_stable : ∀ (fuel : Nat) (call : ICall) (defs : Defs)
    (cache : TypedefCache),
    wfDefs defs → idlBound defs cache call ≤ fuel →
    idlGo (fuel + 1) call defs cache = idlGo fuel call defs cache ∧
    (idlGo fuel call defs cache).isSome = true := by
  intro fuel
  induction fuel with
  | zero =>
    intro call defs cache _ hb
    exfalso
    cases call <;> (simp only [idlBound] at hb; omega)
  | succ fuel ih =>
    intro call defs cache hwf hb
    cases call with
    | subtypesCall subs =>
      cases subs with
      | nil => exact ⟨by simp [idlGo], by simp [idlGo]⟩
      | cons sub rest =>
        simp only [idlBound, tySizeList] at hb
        have hb1 : idlBound defs cache (.tyCall sub false) ≤ fuel := by
          simp only [idlBound]
          omega
        have h1 := ih (.tyCall sub false) defs cache hwf hb1
        obtain ⟨rc, hres⟩ := Option.isSome_iff_exists.mp h1.2
        rcases rc with ⟨result, cache1⟩
        have hres1 : idlGo (fuel + 1) (.tyCall sub false) defs cache =
            some (result, cache1) := h1.1.trans hres
        cases result with
        | some found =>
          constructor
          · rw [idlGo_sub_found (fuel + 1) sub rest defs cache found cache1 hres1,
              idlGo_sub_found fuel sub rest defs cache found cache1 hres]
          · rw [idlGo_sub_found fuel sub rest defs cache found cache1 hres]
            split <;> simp
        | none =>
          have hu1 : uncachedTypedefCount defs cache1 ≤ uncachedTypedefCount defs cache :=
            uncachedTypedefCount_mono defs cache cache1
              (idlGo_cache_mono fuel (.tyCall sub false) defs cache none cache1 hres)
          have hmul := Nat.mul_le_mul_right (2 * tdMax defs + 2) hu1
          have hr : idlBound defs cache1 (.subtypesCall rest) ≤ fuel := by
            simp only [idlBound]
            have hsz := tySize_pos sub
            omega
          have h2 := ih (.subtypesCall rest) defs cache1 hwf hr
          constructor
          · rw [idlGo_sub_none (fuel + 1) sub rest defs cache cache1 hres1,
              idlGo_sub_none fuel sub rest defs cache cache1 hres]
            exact h2.1
          · rw [idlGo_sub_none fuel sub rest defs cache cache1 hres]
            exact h2.2
    | tyCall ty uni =>
      simp only [idlBound] at hb
      by_cases hun : ty.unionQ = true
      · have hbs : idlBound defs cache (.subtypesCall ty.subtype) ≤ fuel := by
          simp only [idlBound]
          have := tySize_eq ty
          omega
        have h2 := ih (.subtypesCall ty.subtype) defs cache hwf hbs
        constructor
        · rw [idlGo_ty_union (fuel + 1) ty uni defs cache hun,
            idlGo_ty_union fuel ty uni defs cache hun]
          exact h2.1
        · rw [idlGo_ty_union fuel ty uni defs cache hun]
          exact h2.2
      · have hunF : ty.unionQ = false := by simpa using hun
        cases hu : uniqueGet defs ty.refName with
        | none =>
          exact ⟨by rw [idlGo_ty_nodef (fuel + 1) ty uni defs cache hunF hu,
              idlGo_ty_nodef fuel ty uni defs cache hunF hu],
            by rw [idlGo_ty_nodef fuel ty uni defs cache hunF hu]; rfl⟩
        | some def1 =>
          by_cases htd : (def1.dtype == s2l "typedef") = true
          · by_cases hhas : alHas cache def1.dname = true
            · exact ⟨by rw [idlGo_ty_cached (fuel + 1) ty uni defs cache def1 hunF hu htd hhas,
                  idlGo_ty_cached fuel ty uni defs cache def1 hunF hu htd hhas],
                by rw [idlGo_ty_cached fuel ty uni defs cache def1 hunF hu htd hhas]; rfl⟩
            · have hhasF : alHas cache def1.dname = false := by simpa using hhas
              obtain ⟨p, hpmem, hp1, hp2⟩ := uniqueGet_props defs ty.refName def1 hu
              have hdn : p.1 = def1.dname := by
                rw [← hp2]
                exact (hwf p hpmem).symm
              have hlt : uncachedTypedefCount defs (alSet cache def1.dname none) <
                  uncachedTypedefCount defs cache :=
                uncachedTypedefCount_alSet_lt defs cache def1.dname none p hpmem hdn
                  (by rw [hp2]; exact htd) hhasF
              have hT : tySize def1.tdType ≤ tdMax defs :=
                tdMax_le defs ty.refName def1 hu htd
              have hmul : uncachedTypedefCount defs (alSet cache def1.dname none) *
                    (2 * tdMax defs + 2) + (2 * tdMax defs + 2) ≤
                  uncachedTypedefCount defs cache * (2 * tdMax defs + 2) := by
                have h := Nat.mul_le_mul_right (2 * tdMax defs + 2)
                  (show uncachedTypedefCount defs (alSet cache def1.dname none) + 1 ≤
                    uncachedTypedefCount defs cache from hlt)
                rw [Nat.add_mul, Nat.one_mul] at h
                exact h
              have hbi : idlBound defs (alSet cache def1.dname none)
                  (.tyCall def1.tdType false) ≤ fuel := by
                simp only [idlBound]
                have hp := tySize_pos ty
                omega
              have h1 := ih (.tyCall def1.tdType false) defs
                (alSet cache def1.dname none) hwf hbi
              obtain ⟨rc, hres⟩ := Option.isSome_iff_exists.mp h1.2
              rcases rc with ⟨result, cache2⟩
              have hres1 : idlGo (fuel + 1) (.tyCall def1.tdType false) defs
                  (alSet cache def1.dname none) = some (result, cache2) :=
                h1.1.trans hres
              cases result with
              | some found =>
                constructor
                · rw [idlGo_ty_typedef_found (fuel + 1) ty uni defs cache def1 found cache2
                      hunF hu htd hhasF hres1,
                    idlGo_ty_typedef_found fuel ty uni defs cache def1 found cache2
                      hunF hu htd hhasF hres]
                · rw [idlGo_ty_typedef_found fuel ty uni defs cache def1 found cache2
                      hunF hu htd hhasF hres]
                  rfl
              | none =>
                have htdne : (def1.dtype == s2l "dictionary" && (uni || !ty.nullableQ)) = false := by
                  have heq : def1.dtype = s2l "typedef" := by simpa using htd
                  rw [heq]
                  rw [show (s2l "typedef" == s2l "dictionary") = false from by decide]
                  simp
                have hu2 : uncachedTypedefCount defs cache2 ≤
                    uncachedTypedefCount defs (alSet cache def1.dname none) :=
                  uncachedTypedefCount_mono defs _ cache2
                    (idlGo_cache_mono fuel (.tyCall def1.tdType false) defs
                      (alSet cache def1.dname none) none cache2 hres)
                have hu3 : uncachedTypedefCount defs (alSet cache2 def1.dname none) ≤
                    uncachedTypedefCount defs cache2 :=
                  uncachedTypedefCount_alSet_le defs cache2 def1.dname none
                have hmul3 := Nat.mul_le_mul_right (2 * tdMax defs + 2)
                  (le_trans hu3 (le_trans hu2 (le_of_lt hlt)))
                have hbs : idlBound defs (alSet cache2 def1.dname none)
                    (.subtypesCall ty.subtype) ≤ fuel := by
                  simp only [idlBound]
                  have := tySize_eq ty
                  omega
                have h2 := ih (.subtypesCall ty.subtype) defs
                  (alSet cache2 def1.dname none) hwf hbs
                constructor
                · rw [idlGo_ty_typedef_none (fuel + 1) ty uni defs cache def1 cache2
                      hunF hu htd hhasF hres1 htdne,
                    idlGo_ty_typedef_none fuel ty uni defs cache def1 cache2
                      hunF hu htd hhasF hres htdne]
                  exact h2.1
                · rw [idlGo_ty_typedef_none fuel ty uni defs cache def1 cache2
                      hunF hu htd hhasF hres htdne]
                  exact h2.2
          · have htdF : (def1.dtype == s2l "typedef") = false := by simpa using htd
            by_cases hdict : (def1.dtype == s2l "dictionary" && (uni || !ty.nullableQ)) = true
            · constructor
              · rw [idlGo_ty_nontypedef (fuel + 1) ty uni defs cache def1 hunF hu htdF,
                  idlGo_ty_nontypedef fuel ty uni defs cache def1 hunF hu htdF]
                simp [hdict]
              · rw [idlGo_ty_nontypedef fuel ty uni defs cache def1 hunF hu htdF]
                simp [hdict]
            · have hdictF : (def1.dtype == s2l "dictionary" && (uni || !ty.nullableQ)) = false := by
                simpa using hdict
              have hbs : idlBound defs cache (.subtypesCall ty.subtype) ≤ fuel := by
                simp only [idlBound]
                have := tySize_eq ty
                omega
              have h2 := ih (.subtypesCall ty.subtype) defs cache hwf hbs
              constructor
              · rw [idlGo_ty_nontypedef (fuel + 1) ty uni defs cache def1 hunF hu htdF,
                  idlGo_ty_nontypedef fuel ty uni defs cache def1 hunF hu htdF]
                simp only [hdictF, Bool.false_eq_true, if_false]
                exact h2.1
              · rw [idlGo_ty_nontypedef fuel ty uni defs cache def1 hunF hu htdF]
                simp only [hdictF, Bool.false_eq_true, if_false]
                exact h2.2

theorem idlGo_fuel_indep (call : ICall) (defs : Defs) (cache : TypedefCache)
    (hwf : wfDefs defs) (f1 f2 : Nat) (h1 : idlBound defs cache call ≤ f1)
    (h2 : idlBound defs cache call ≤ f2) :
    idlGo f1 call defs cache = idlGo f2 call defs cache ∧
    (idlGo f1 call defs cache).isSome = true := by
  have key : ∀ f, idlBound defs cache call ≤ f →
      idlGo f call defs cache = idlGo (idlBound defs cache call) call defs cache := by
    intro f hf
    induction f, hf using Nat.le_induction with
    | base => rfl
    | succ n hn ihn => rw [(idlGo_stable n call defs cache hwf hn).1, ihn]
  refine ⟨by rw [key f1 h1, key f2 h2], ?_⟩
  rw [key f1 h1]
  exact (idlGo_stable (idlBound defs cache call) call defs cache hwf le_rfl).2

/-- C3.  Both recursive analyses terminate on every definition index,
including ones whose typedefs or dictionary inheritance chains form
cycles: with any fuel of at least the stated bound (computed from the
index and the current cache) the fuelled encodings return a defined
result that is independent of the fuel, so the source functions — whose
only recursion is what the fuel meters here — cannot recurse beyond that
bound.  Moreover, re-entering a definition whose cache entry exists (in
particular one still in the pending/indeterminate `undefined` state)
returns the stored value immediately — for a pending entry the
pessimistic `undefined`, i.e. "no dictionary found" / "no required
field" — instead of recursing again. -/
theorem analyses_terminate_on_cycles (defs : Defs) (hwf : wfDefs defs) :
    (∀ (dict : Defn) (cache : RequiredCache) (f1 f2 : Nat),
      dictBound defs cache ≤ f1 → dictBound defs cache ≤ f2 →
      dictionaryIncludesRequiredField f1 dict defs cache =
        dictionaryIncludesRequiredField f2 dict defs cache ∧
      dictionaryIncludesRequiredField f1 dict defs cache ≠ none) ∧
    (∀ (ty : IdlType) (uni : Bool) (cache : TypedefCache) (f1 f2 : Nat),
      idlBound defs cache (.tyCall ty uni) ≤ f1 →
      idlBound defs cache (.tyCall ty uni) ≤ f2 →
      idlTypeIncludesDictionary f1 ty defs uni cache =
        idlTypeIncludesDictionary f2 ty defs uni cache ∧
      idlTypeIncludesDictionary f1 ty defs uni cache ≠ none) ∧
    (∀ (fuel : Nat) (dict : Defn) (cache : RequiredCache),
      alHas cache dict.dname = true →
      dictionaryIncludesRequiredField (fuel + 1) dict defs cache =
        some (alGetD cache dict.dname, cache)) ∧
    (∀ (fuel : Nat) (ty : IdlType) (uni : Bool) (cache : TypedefCache) (def1 : Defn),
      ty.unionQ = false → uniqueGet defs ty.refName = some def1 →
      (def1.dtype == s2l "typedef") = true → alHas cache def1.dname = true →
      idlTypeIncludesDictionary (fuel + 1) ty defs uni cache =
        some (alGetD cache def1.dname, cache)) := by
  refine ⟨?_, ?_, ?_, ?_⟩
  · intro dict cache f1 f2 h1 h2
    have h := dictRF_fuel_indep dict defs cache hwf f1 f2 h1 h2
    exact ⟨h.1, Option.isSome_iff_ne_none.mp h.2⟩
  · intro ty uni cache f1 f2 h1 h2
    have h := idlGo_fuel_indep (.tyCall ty uni) defs cache hwf f1 f2 h1 h2
    exact ⟨h.1, Option.isSome_iff_ne_none.mp h.2⟩
  · intro fuel dict cache hhas
    simp [dictionaryIncludesRequiredField, hhas]
  · intro fuel ty uni cache def1 hun hu htd hhas
    exact idlGo_ty_cached fuel ty uni defs cache def1 hun hu htd hhas

theorem analyses_terminate_on_cycles_witness :
    wfDefs defsCyclic ∧
    (dictionaryIncludesRequiredField 6 dictD1 defsCyclic [] =
      dictionaryIncludesRequiredField 9 dictD1 defsCyclic [] ∧
     dictionaryIncludesRequiredField 6 dictD1 defsCyclic [] ≠ none) ∧
    (idlTypeIncludesDictionary 19 (.mk false (s2l "T1") false []) defsCyclic false [] =
      idlTypeIncludesDictionary 25 (.mk false (s2l "T1") false []) defsCyclic false [] ∧
     idlTypeIncludesDictionary 19 (.mk false (s2l "T1") false []) defsCyclic false [] ≠ none) :=
  ⟨by unfold wfDefs; decide,
   (analyses_terminate_on_cycles defsCyclic (by unfold wfDefs; decide)).1 dictD1 [] 6 9
     (by decide) (by decide),
   (analyses_terminate_on_cycles defsCyclic (by unfold wfDefs; decide)).2.1
     (.mk false (s2l "T1") false []) false [] 19 25 (by decide) (by decide)⟩

theorem consumeT_single_nomatch (t : TokState) (ty : List Char)
    (h : probeT t ty = false) : consumeT t [ty] = (none, t) := by
  simp [consumeT, h]

/-- C4.  For every type parser, every parsed attribute node has a type
whose generic is neither `sequence` nor `record`; and whenever
`Attribute.parse` reaches the type and the parsed type's generic is
`sequence` or `record`, it raises the syntax error
"Attributes cannot accept sequence types" (respectively "record") at
parse time — so no attribute node with such a type is ever produced or
reaches the validator. -/
theorem attribute_rejects_sequence_record :
    (∀ (tp : TokState → Except (List Char) (Option AType × TokState))
       (special : Option Token) (noInherit readonlyArg : Bool)
       (t : TokState) (ret : AttributeNode) (t2 : TokState),
      Attribute.parse tp special noInherit readonlyArg t = .node ret t2 →
      ret.idlType.generic ≠ s2l "sequence" ∧ ret.idlType.generic ≠ s2l "record") ∧
    (∀ (tp : TokState → Except (List Char) (Option AType × TokState))
       (t : TokState) (b : Token) (t3 : TokState) (ty : AType) (t4 : TokState),
      probeT t (s2l "readonly") = false →
      consumeT t [(s2l "attribute")] = (some b, t3) →
      tp t3 = .ok (some ty, t4) →
      (ty.generic = s2l "sequence" ∨ ty.generic = s2l "record") →
      Attribute.parse tp none true false t =
        .perr (s2l "Attributes cannot accept " ++ ty.generic ++ s2l " types")) := by
  constructor
  · intro tp special noInherit readonlyArg t ret t2 h
    simp only [Attribute.parse] at h
    repeat' split at h
    all_goals cases h
    all_goals simp_all [Bool.or_eq_true, beq_iff_eq, not_or]
  · intro tp t b t3 ty t4 hnro hbase htp hg
    simp only [Attribute.parse]
    rw [show (if (none : Option Token).isNone && !true then
        consumeT t [(s2l "inherit")] else ((none : Option Token), t)) = (none, t)
      from by simp]
    simp only [specialValue]
    rw [show (([] : List Char) == s2l "inherit") = false from by decide]
    simp only [Bool.false_and, Bool.false_eq_true, if_false]
    rw [consumeT_single_nomatch t (s2l "readonly") hnro]
    simp only [Bool.false_and, Bool.false_eq_true, if_false]
    rw [hbase]
    rw [htp]
    rcases hg with hg | hg
    · simp [hg,
        show ((s2l "sequence" == s2l "sequence") || (s2l "sequence" == s2l "record")) = true
          from by decide]
    · simp [hg,
        show ((s2l "record" == s2l "sequence") || (s2l "record" == s2l "record")) = true
          from by decide]

theorem attribute_rejects_sequence_record_witness :
    Attribute.parse seqTypeFn none true false { source := attrTokens, position := 0 } =
      .perr (s2l "Attributes cannot accept " ++ s2l "sequence" ++ s2l " types") ∧
    Attribute.parse plainTypeFn none true false { source := attrTokens, position := 0 } =
      .node { specialTok := none, readonlyTok := none,
              baseTok := some (attrTokens.get ⟨0, by decide⟩),
              nameTok := some (attrTokens.get ⟨1, by decide⟩),
              terminationTok := some (attrTokens.get ⟨2, by decide⟩),
              idlType := { generic := [] } }
        { source := attrTokens, position := 3 } ∧
    ({ generic := [] } : AType).generic ≠ s2l "sequence" ∧
    ({ generic := [] } : AType).generic ≠ s2l "record" :=
  ⟨attribute_rejects_sequence_record.2 seqTypeFn
      { source := attrTokens, position := 0 }
      (attrTokens.get ⟨0, by decide⟩)
      { source := attrTokens, position := 1 }
      { generic := s2l "sequence" }
      { source := attrTokens, position := 1 }
      (by decide) (by decide) rfl (Or.inl rfl),
   by decide,
   attribute_rejects_sequence_record.1 plainTypeFn none true false
     { source := attrTokens, position := 0 }
     { specialTok := none, readonlyTok := none,
       baseTok := some (attrTokens.get ⟨0, by decide⟩),
       nameTok := some (attrTokens.get ⟨1, by decide⟩),
       terminationTok := some (attrTokens.get ⟨2, by decide⟩),
       idlType := { generic := [] } }
     { source := attrTokens, position := 3 }
     (by decide)⟩

/-- C7.  `Operation.validate` yields a diagnostic of kind `incomplete-op`
bound to the `(` token exactly when the operation has no name and its
`special` field is empty or `static` (given that the type and argument
child validations never produce `incomplete-op` diagnostics — the kind is
specific to this rule).  In particular a nameless getter, setter, deleter
or stringifier operation yields no `incomplete-op` diagnostic. -/
theorem operation_incomplete_op_iff (op : OperationNode)
    (typeDiags argDiags : List Diag)
    (h : ∀ d ∈ typeDiags ++ argDiags, d.kind ≠ s2l "incomplete-op") :
    (∃ d ∈ Operation.validate op typeDiags argDiags,
      d.kind = s2l "incomplete-op" ∧ d.token = op.openTok) ↔
    (Operation.name op = [] ∧
     (Operation.special op = [] ∨ Operation.special op = s2l "static")) := by
  by_cases hc : (Operation.name op == [] &&
      ((Operation.special op == []) || (Operation.special op == s2l "static"))) = true
  · simp only [Operation.validate, hc, if_true]
    constructor
    · intro _
      simpa [Bool.and_eq_true, Bool.or_eq_true, beq_iff_eq] using hc
    · intro _
      exact ⟨incompleteOpDiag op, by simp, rfl, rfl⟩
  · have hcF : (Operation.name op == [] &&
        ((Operation.special op == []) || (Operation.special op == s2l "static"))) = false := by
      simpa using hc
    simp only [Operation.validate, hcF, Bool.false_eq_true, if_false, List.nil_append]
    constructor
    · intro ⟨d, hd, hk, _⟩
      exact absurd hk (h d hd)
    · intro hr
      exfalso
      apply hc
      simp only [Bool.and_eq_true, Bool.or_eq_true, beq_iff_eq]
      exact hr

theorem operation_incomplete_op_iff_witness :
    Operation.validate opGetterNameless [] [] = [] ∧
    (∃ d ∈ Operation.validate opStaticNameless [] [],
      d.kind = s2l "incomplete-op" ∧ d.token = opStaticNameless.openTok) :=
  ⟨by decide,
   (operation_incomplete_op_iff opStaticNameless [] [] (by simp)).mpr
     ⟨by decide, Or.inr (by decide)⟩⟩

/-- C8.  `Interface.validate` yields a diagnostic of kind
`require-exposed` carrying the `[Exposed=Window]`-inserting autofix
exactly when the interface is non-partial and none of its extended
attributes is named `Exposed` or `NoInterfaceObject` (given that the
extended-attribute, super-class and member-duplication validations never
produce `require-exposed` diagnostics — the kind is specific to this
rule). -/
theorem interface_require_exposed_iff (i : InterfaceNode)
    (extDiags superDiags dupDiags : List Diag)
    (h : ∀ d ∈ extDiags ++ superDiags ++ dupDiags, d.kind ≠ s2l "require-exposed") :
    (∃ d ∈ Interface.validate i extDiags superDiags dupDiags,
      d.kind = s2l "require-exposed" ∧ d.autofix = some .addExposedWindow) ↔
    (i.isPartial = false ∧
     ∀ a ∈ i.extAttrs, a.name ≠ s2l "Exposed" ∧ a.name ≠ s2l "NoInterfaceObject") := by
  have hext : ∀ d ∈ extDiags, d.kind ≠ s2l "require-exposed" := by
    intro d hd
    exact h d (by simp [hd])
  have hsup : ∀ d ∈ superDiags, d.kind ≠ s2l "require-exposed" := by
    intro d hd
    exact h d (by simp [hd])
  have hdup : ∀ d ∈ dupDiags, d.kind ≠ s2l "require-exposed" := by
    intro d hd
    exact h d (by simp [hd])
  constructor
  · intro ⟨d, hd, hk, hfix⟩
    simp only [Interface.validate, List.mem_append] at hd
    rcases hd with ((((hd | hd) | hd) | hd) | hd) | hd
    · exact absurd hk (hext d hd)
    · by_cases hc : (!i.isPartial &&
          i.extAttrs.all (fun a => !(a.name == s2l "Exposed")) &&
          i.extAttrs.all (fun a => !(a.name == s2l "NoInterfaceObject"))) = true
      · simp only [Bool.and_eq_true, Bool.not_eq_true', List.all_eq_true,
          beq_eq_false_iff_ne] at hc
        refine ⟨hc.1.1, ?_⟩
        intro a ha
        exact ⟨hc.1.2 a ha, hc.2 a ha⟩
      · rw [if_neg hc] at hd
        cases hd
    · obtain ⟨a, _, rfl⟩ := List.mem_map.mp hd
      have hk2 : s2l "constructor-member" = s2l "require-exposed" := hk
      exact absurd hk2 (by decide)
    · exfalso
      by_cases hg : i.extAttrs.any (fun a => a.name == s2l "Global") = true
      · rw [if_pos hg] at hd
        rcases List.mem_append.mp hd with hd | hd
        · obtain ⟨a, _, rfl⟩ := List.mem_map.mp hd
          have hk2 : s2l "no-constructible-global" = s2l "require-exposed" := hk
          exact absurd hk2 (by decide)
        · obtain ⟨m, _, rfl⟩ := List.mem_map.mp hd
          have hk2 : s2l "no-constructible-global" = s2l "require-exposed" := hk
          exact absurd hk2 (by decide)
      · rw [if_neg hg] at hd
        cases hd
    · exact absurd hk (hsup d hd)
    · by_cases hp : (!i.isPartial) = true
      · rw [if_pos hp] at hd
        exact absurd hk (hdup d hd)
      · rw [if_neg hp] at hd
        cases hd
  · intro ⟨hp, hattrs⟩
    have hc : (!i.isPartial &&
        i.extAttrs.all (fun a => !(a.name == s2l "Exposed")) &&
        i.extAttrs.all (fun a => !(a.name == s2l "NoInterfaceObject"))) = true := by
      simp only [Bool.and_eq_true, Bool.not_eq_true', List.all_eq_true,
        beq_eq_false_iff_ne]
      exact ⟨⟨by simp [hp], fun a ha => (hattrs a ha).1⟩, fun a ha => (hattrs a ha).2⟩
    refine ⟨requireExposedDiag i, ?_, rfl, rfl⟩
    simp only [Interface.validate, List.mem_append, hc, if_true]
    simp

theorem interface_require_exposed_iff_witness :
    Interface.validate exposedInterface [] [] [] = [] ∧
    (∃ d ∈ Interface.validate plainInterface [] [] [],
      d.kind = s2l "require-exposed" ∧ d.autofix = some .addExposedWindow) :=
  ⟨by decide,
   (interface_require_exposed_iff plainInterface [] [] [] (by simp)).mpr
     ⟨by decide, by simp [plainInterface]⟩⟩
